import Mathlib

/-!
# Table iterator of the MiniSQL storage layer

A shallow embedding of `src/storage/table_iterator.cpp`: the forward cursor over a
paged, slotted table heap.  The iterator source is embedded statement by statement.
The collaborators it calls (page cache, heap page, table heap, row id) are declared in
headers outside the embedded file; each of them is modelled from the interface section
of the specification and marked as such.

Pointers become values: a `Transaction*` is an `Option Nat` (`none` is `nullptr`), a
`TablePage*` returned by the cache is an `Option TablePage`, the `TableHeap*` of an
iterator is the heap's identity while the heap's contents are passed explicitly.
The `while (true)` page walk takes a budget of loop re-entries; running out of it is the
outcome `diverged`.

Two further layers serve the claims about copies and about the order of calls: iterator
objects whose Row lives at an address of a free store, and checks that replay the call
history of the page cache against the pins and read locks held at each point.
-/

namespace MiniSql

/-! ## Data model -/

/-- Modelled from the spec: the distinguished invalid page id, meaning "no location". -/
def INVALID_PAGE_ID : Int := -1

/-- Modelled from the spec: a RowId is the (page id, slot) pair addressing one row. -/
structure RowId where
  page_id : Int
  slot_num : Nat
deriving DecidableEq, Repr

/-- Modelled from the spec: the page id component of a RowId. -/
def RowId.GetPageId (r : RowId) : Int := r.page_id

/-- Modelled from the spec: the address of a RowId as one value; two RowIds have the
same address exactly when page id and slot agree. -/
def RowId.Get (r : RowId) : Int × Nat := (r.page_id, r.slot_num)

/-- Modelled from the spec: the field payload of a materialized row. -/
abbrev Fields := List Int

/-- Modelled from the spec: a Row is an address plus a payload that is either unset
(`none`) or populated. -/
structure Row where
  rid : RowId
  fields : Option Fields
deriving DecidableEq, Repr

/-- Modelled from the spec: `Row(rid)`, a Row built from a RowId alone has an unset
payload. -/
def Row.ofRowId (rid : RowId) : Row := ⟨rid, none⟩

/-- Modelled from the spec: the address of a Row. -/
def Row.GetRowId (r : Row) : RowId := r.rid

/-- Modelled from the spec: a heap page is a slotted container of rows (`none` is a slot
whose row is gone) with its own page id and the id of its successor page. -/
structure TablePage where
  page_id : Int
  next_page_id : Int
  slots : List (Option Fields)
deriving DecidableEq, Repr

/-- Modelled from the spec: the slot search behind `firstRow()` and `nextRowAfter(..)`, the
first slot index, counted from `idx`, that is at least `start` and holds a row. -/
def firstLiveFrom : List (Option Fields) → Nat → Nat → Option Nat
  | [], _, _ => none
  | s :: rest, idx, start =>
    if start ≤ idx ∧ s.isSome = true then some idx else firstLiveFrom rest (idx + 1) start

/-- Modelled from the spec: `pageId()`. -/
def TablePage.GetTablePageId (p : TablePage) : Int := p.page_id

/-- Modelled from the spec: `successorPageId()`, the invalid id when there is none. -/
def TablePage.GetNextPageId (p : TablePage) : Int := p.next_page_id

/-- Modelled from the spec: `firstRow()`, the address of the first row on this page, or
`none` (the call returns false) when the page holds no row. -/
def TablePage.GetFirstTupleRid (p : TablePage) : Option RowId :=
  (firstLiveFrom p.slots 0 0).map (fun i => RowId.mk p.page_id i)

/-- Modelled from the spec: `nextRowAfter(rid)`, the address of the first row on this page
in a slot after the slot of `cur_rid`, or `none` (the call returns false). -/
def TablePage.GetNextTupleRid (p : TablePage) (cur_rid : RowId) : Option RowId :=
  (firstLiveFrom p.slots 0 (cur_rid.slot_num + 1)).map (fun i => RowId.mk p.page_id i)

/-- Modelled from the spec: the row a page stores in a slot, if any. -/
def TablePage.rowAt (p : TablePage) (slot : Nat) : Option Fields :=
  (p.slots.get? slot).join

/-- Modelled from the spec: one call made to a collaborator, as kept in the history of
the page cache. -/
inductive Event where
  | fetch (pid : Int) (hit : Bool)
  | unpin (pid : Int)
  | rlatch (pid : Int)
  | runlatch (pid : Int)
  | nextTupleRid (pid : Int) (cur : RowId)
  | firstTupleRid (pid : Int)
  | nextPageId (pid : Int)
  | getTuple (rid : RowId) (txn : Option Nat)
deriving DecidableEq, Repr

/-- Modelled from the spec: the page cache.  It holds the pages, a pin count per page id
and, for the latch carried by each page, the number of read locks taken minus the number
released.  `events` is the history of calls, oldest first. -/
structure BufferPoolManager where
  pages : List TablePage
  pin_count : Int → Nat
  reader_count : Int → Int
  events : List Event

/-- Modelled from the spec: append a call to the history of the page cache. -/
def BufferPoolManager.record (b : BufferPoolManager) (e : Event) : BufferPoolManager :=
  { b with events := b.events ++ [e] }

/-- Modelled from the spec: the first page of a list that carries a page id. -/
def findPage (pages : List TablePage) (pid : Int) : Option TablePage :=
  pages.find? (fun p => decide (p.page_id = pid))

/-- Modelled from the spec: the page the cache holds under a page id. -/
def BufferPoolManager.lookup (b : BufferPoolManager) (pid : Int) : Option TablePage :=
  findPage b.pages pid

/-- Modelled from the spec: the effect of a successful fetch, one more pin on the page and
an entry in the history. -/
def BufferPoolManager.addPin (b : BufferPoolManager) (pid : Int) : BufferPoolManager :=
  { b with
      pin_count := fun q => if q = pid then b.pin_count q + 1 else b.pin_count q,
      events := b.events ++ [Event.fetch pid true] }

/-- Modelled from the spec: `fetch(pageId)` yields a pinned page handle, or not-found
(`nullptr`) which pins nothing. -/
def BufferPoolManager.FetchPage (b : BufferPoolManager) (pid : Int) :
    BufferPoolManager × Option TablePage :=
  match b.lookup pid with
  | some p => (b.addPin pid, some p)
  | none => (b.record (Event.fetch pid false), none)

/-- Modelled from the spec: `unpin(pageId, dirtyFlag)` drops one pin of the page. -/
def BufferPoolManager.UnpinPage (b : BufferPoolManager) (pid : Int) : BufferPoolManager :=
  { b with
      pin_count := fun q => if q = pid then b.pin_count q - 1 else b.pin_count q,
      events := b.events ++ [Event.unpin pid] }

/-- Modelled from the spec: `acquireReadLock()` on the page with this id. -/
def BufferPoolManager.RLatch (b : BufferPoolManager) (pid : Int) : BufferPoolManager :=
  { b with
      reader_count := fun q => if q = pid then b.reader_count q + 1 else b.reader_count q,
      events := b.events ++ [Event.rlatch pid] }

/-- Modelled from the spec: `releaseReadLock()` on the page with this id.  A release
without a matching acquire shows as a negative count. -/
def BufferPoolManager.RUnlatch (b : BufferPoolManager) (pid : Int) : BufferPoolManager :=
  { b with
      reader_count := fun q => if q = pid then b.reader_count q - 1 else b.reader_count q,
      events := b.events ++ [Event.runlatch pid] }

/-- Modelled from the spec: the table heap owns the page chain through its page cache
and declares an end-of-scan address, built from the invalid page id and a slot. -/
structure TableHeap where
  heap_id : Nat
  buffer_pool_manager_ : BufferPoolManager
  end_slot : Nat

/-- Modelled from the spec: the heap with its page cache in a new state. -/
def TableHeap.withPool (h : TableHeap) (b : BufferPoolManager) : TableHeap :=
  { h with buffer_pool_manager_ := b }

/-- Modelled from the spec: the row the heap stores at an address, if any. -/
def TableHeap.stored (h : TableHeap) (rid : RowId) : Option Fields :=
  (h.buffer_pool_manager_.lookup rid.page_id).bind (fun p => p.rowAt rid.slot_num)

/-- Modelled from the spec: `fill(row*, txnContext)` materializes the payload of a Row from
its address and reports success, or reports a fault and leaves the Row as it was. -/
def TableHeap.GetTuple (h : TableHeap) (row : Row) (txn : Option Nat) :
    TableHeap × Row × Bool :=
  let h1 := h.withPool (h.buffer_pool_manager_.record (Event.getTuple row.rid txn))
  match h.stored row.rid with
  | some f => (h1, { row with fields := some f }, true)
  | none => (h1, row, false)

/-- The cursor: owning heap (by identity), current Row, transaction context. -/
structure TableIterator where
  table_heap : Nat
  row : Row
  txn : Option Nat
deriving DecidableEq, Repr

/-- Modelled from the spec: `end()`, the sentinel iterator position of the heap. -/
def TableHeap.End (h : TableHeap) : TableIterator :=
  ⟨h.heap_id, Row.ofRowId ⟨INVALID_PAGE_ID, h.end_slot⟩, none⟩

/-! ## The iterator (`table_iterator.cpp`) -/

/-- Constructor `TableIterator(table_heap, rid, txn)`: the Row is `Row(rid)`, and it is
filled through the heap only when the page id of `rid` is not the invalid one. -/
def TableIterator.Construct (h : TableHeap) (rid : RowId) (txn : Option Nat) :
    TableHeap × TableIterator :=
  let row := Row.ofRowId rid
  if rid.GetPageId ≠ INVALID_PAGE_ID then
    let r := h.GetTuple row txn
    (r.1, ⟨h.heap_id, r.2.1, txn⟩)
  else
    (h, ⟨h.heap_id, row, txn⟩)

/-- Copy constructor: a new iterator with a copy of the other's Row. -/
def TableIterator.copy (other : TableIterator) : TableIterator :=
  ⟨other.table_heap, ⟨other.row.rid, other.row.fields⟩, other.txn⟩

/-- The `operator==` of the iterator: the two RowIds have the same address. -/
def TableIterator.operator_eq (self itr : TableIterator) : Bool :=
  decide (self.row.GetRowId.Get = itr.row.GetRowId.Get)

/-- The `operator!=` of the iterator. -/
def TableIterator.operator_ne (self itr : TableIterator) : Bool :=
  !(self.operator_eq itr)

/-- The ways an operation can fail.  A failed `ASSERT` is the ProgrammingError of the
specification, a thrown `std::runtime_error` its StorageInconsistency, and following a
null page pointer is neither. -/
inductive Fault where
  | ProgrammingError
  | StorageInconsistency
  | NullDereference
deriving DecidableEq, Repr

/-- The `operator*` of the iterator. -/
def TableIterator.operator_deref (self : TableIterator) (h : TableHeap) : Except Fault Row :=
  if self.operator_ne h.End = true then Except.ok self.row
  else Except.error Fault.ProgrammingError

/-- The `operator->` of the iterator. -/
def TableIterator.operator_arrow (self : TableIterator) (h : TableHeap) : Except Fault Row :=
  if self.operator_ne h.End = true then Except.ok self.row
  else Except.error Fault.ProgrammingError

/-- What evaluating the loop condition of the page walk leaves behind: the cache, the
value of `cur_page` (`none` is `nullptr`), and `next_tuple_rid` when the condition held. -/
structure Probe where
  bpm : BufferPoolManager
  cur_page : Option TablePage
  found : Option RowId

/-- The condition `GetNextTupleRid(..) || (GetNextPageId() != INVALID_PAGE_ID &&
(cur_page = FetchPage(GetNextPageId())) != nullptr && GetFirstTupleRid(..))`, evaluated
left to right with short-circuiting. -/
def probe (b : BufferPoolManager) (cur : TablePage) (rid : RowId) : Probe :=
  let b1 := b.record (Event.nextTupleRid cur.page_id rid)
  match cur.GetNextTupleRid rid with
  | some n => ⟨b1, some cur, some n⟩
  | none =>
    let b2 := b1.record (Event.nextPageId cur.page_id)
    if cur.GetNextPageId ≠ INVALID_PAGE_ID then
      let r := (b2.record (Event.nextPageId cur.page_id)).FetchPage cur.GetNextPageId
      match r.2 with
      | none => ⟨r.1, none, none⟩
      | some q => ⟨r.1.record (Event.firstTupleRid q.page_id), some q, q.GetFirstTupleRid⟩
    else ⟨b2, some cur, none⟩

/-- How one pass through the body of `while (true)` ends. -/
inductive Pass where
  | found (b : BufferPoolManager) (cur : TablePage) (next : RowId)
  | raised (b : BufferPoolManager) (f : Fault)
  | again (b : BufferPoolManager) (cur : TablePage)

/-- One pass through the body of `while (true)`. -/
def pass (b : BufferPoolManager) (cur : TablePage) (rid : RowId) : Pass :=
  let p := probe b cur rid
  match p.cur_page, p.found with
  | some c, some n => Pass.found p.bpm c n
  | none, _ => Pass.raised p.bpm Fault.NullDereference
  | some c, none =>
    let b1 := p.bpm.record (Event.nextPageId c.page_id)
    if c.GetNextPageId = INVALID_PAGE_ID then Pass.raised b1 Fault.StorageInconsistency
    else Pass.again (((b1.RUnlatch c.page_id).UnpinPage c.GetTablePageId).RLatch c.page_id) c

/-- How the page walk ends. -/
inductive WalkResult where
  | found (cur : TablePage) (next : RowId)
  | raised (f : Fault)
  | diverged
deriving DecidableEq, Repr

/-- The loop `while (true)`, allowed to re-enter its body `fuel` times. -/
def walk : Nat → BufferPoolManager → TablePage → RowId → BufferPoolManager × WalkResult
  | 0, b, cur, rid =>
    match pass b cur rid with
    | Pass.found b1 c n => (b1, WalkResult.found c n)
    | Pass.raised b1 f => (b1, WalkResult.raised f)
    | Pass.again b1 _ => (b1, WalkResult.diverged)
  | fuel + 1, b, cur, rid =>
    match pass b cur rid with
    | Pass.found b1 c n => (b1, WalkResult.found c n)
    | Pass.raised b1 f => (b1, WalkResult.raised f)
    | Pass.again b1 c => walk fuel b1 c rid

/-- How a call of an operation ends. -/
inductive Outcome where
  | returned
  | raised (f : Fault)
  | diverged
deriving DecidableEq, Repr

/-- The heap and the iterator after a call of an operation, and how the call ended. -/
structure Step where
  heap : TableHeap
  itr : TableIterator
  outcome : Outcome

/-- The pre-increment `operator++()`. -/
def TableIterator.operator_pre_inc (self : TableIterator) (fuel : Nat) (h : TableHeap) : Step :=
  let r := h.buffer_pool_manager_.FetchPage self.row.GetRowId.GetPageId
  match r.2 with
  | none => ⟨h.withPool r.1, self, Outcome.raised Fault.StorageInconsistency⟩
  | some cur_page =>
    match walk fuel (r.1.RLatch cur_page.page_id) cur_page self.row.GetRowId with
    | (b, WalkResult.raised f) => ⟨h.withPool b, self, Outcome.raised f⟩
    | (b, WalkResult.diverged) => ⟨h.withPool b, self, Outcome.diverged⟩
    | (b, WalkResult.found c next_tuple_rid) =>
      let self1 : TableIterator := { self with row := Row.ofRowId next_tuple_rid }
      let h1 := h.withPool b
      let filled : TableHeap × TableIterator :=
        if self1.operator_ne h1.End = true then
          let g := h1.GetTuple self1.row none
          (g.1, { self1 with row := g.2.1 })
        else (h1, self1)
      let b2 := (filled.1.buffer_pool_manager_.RUnlatch c.page_id).UnpinPage c.GetTablePageId
      ⟨filled.1.withPool b2, filled.2, Outcome.returned⟩

/-- The post-increment `operator++(int)`: the state after the call and the returned
snapshot, which exists only when the inner pre-increment returned. -/
def TableIterator.operator_post_inc (self : TableIterator) (fuel : Nat) (h : TableHeap) :
    Step × Option TableIterator :=
  let clone := TableIterator.copy self
  let s := self.operator_pre_inc fuel h
  match s.outcome with
  | Outcome.returned => (s, some clone)
  | _ => (s, none)

/-- The cache once the condition has fetched the successor of `P` and asked it for its
first row. -/
def hopPool (b : BufferPoolManager) (P Q : TablePage) (rid : RowId) : BufferPoolManager :=
  (((((b.record (Event.nextTupleRid P.page_id rid)).record (Event.nextPageId P.page_id)).record
    (Event.nextPageId P.page_id)).addPin P.GetNextPageId).record (Event.firstTupleRid Q.page_id))

/-! ## The iterator over an arbitrary fill -/

/-- Modelled from the spec: a fill call as the heap layer may provide it,
`fill(row*, txnContext) -> success | fault`: from the heap, the Row and the transaction it
yields the heap afterwards, the Row as the call leaves it, and whether it reports success.
`TableHeap.GetTuple` is one such call. -/
abbrev Fill := TableHeap → Row → Option Nat → TableHeap × Row × Bool

/-- The constructor `TableIterator(table_heap, rid, txn)` with the fill of the heap as a
parameter: the same statements as `TableIterator.Construct`. -/
def TableIterator.ConstructWith (fill : Fill) (h : TableHeap) (rid : RowId) (txn : Option Nat) :
    TableHeap × TableIterator :=
  let row := Row.ofRowId rid
  if rid.GetPageId ≠ INVALID_PAGE_ID then
    let r := fill h row txn
    (r.1, ⟨h.heap_id, r.2.1, txn⟩)
  else
    (h, ⟨h.heap_id, row, txn⟩)

/-- The pre-increment `operator++()` with the fill of the heap as a parameter: the same
statements as `TableIterator.operator_pre_inc`. -/
def TableIterator.operator_pre_inc_with (self : TableIterator) (fill : Fill) (fuel : Nat)
    (h : TableHeap) : Step :=
  let r := h.buffer_pool_manager_.FetchPage self.row.GetRowId.GetPageId
  match r.2 with
  | none => ⟨h.withPool r.1, self, Outcome.raised Fault.StorageInconsistency⟩
  | some cur_page =>
    match walk fuel (r.1.RLatch cur_page.page_id) cur_page self.row.GetRowId with
    | (b, WalkResult.raised f) => ⟨h.withPool b, self, Outcome.raised f⟩
    | (b, WalkResult.diverged) => ⟨h.withPool b, self, Outcome.diverged⟩
    | (b, WalkResult.found c next_tuple_rid) =>
      let self1 : TableIterator := { self with row := Row.ofRowId next_tuple_rid }
      let h1 := h.withPool b
      let filled : TableHeap × TableIterator :=
        if self1.operator_ne h1.End = true then
          let g := fill h1 self1.row none
          (g.1, { self1 with row := g.2.1 })
        else (h1, self1)
      let b2 := (filled.1.buffer_pool_manager_.RUnlatch c.page_id).UnpinPage c.GetTablePageId
      ⟨filled.1.withPool b2, filled.2, Outcome.returned⟩

/-- The fill that does to the heap and the Row what `fill` does and always reports
success. -/
def Fill.reportingSuccess (fill : Fill) : Fill :=
  fun h row txn => ((fill h row txn).1, (fill h row txn).2.1, true)

/-- Modelled from the spec: a fill of a heap layer that decides visibility by the
transaction context.  Without a transaction no row is visible: the call is noted in the
history, the Row is left as it was and a fault is reported.  With a transaction it is
`TableHeap.GetTuple`. -/
def fillNeedingTxn : Fill :=
  fun h row txn =>
    match txn with
    | none =>
      (h.withPool (h.buffer_pool_manager_.record (Event.getTuple row.rid none)), row, false)
    | some t => h.GetTuple row (some t)

/-! ## Example heaps -/

/-- A cache over the given pages with nothing pinned, nothing locked, no history. -/
def freshPool (pages : List TablePage) : BufferPoolManager :=
  ⟨pages, fun _ => 0, fun _ => 0, []⟩

/-- Two pages: page 1 holds rows in slots 0 and 1, page 2 holds a row in slot 0. -/
def twoPageHeap : TableHeap :=
  ⟨7, freshPool [⟨1, 2, [some [10], some [11]]⟩, ⟨2, INVALID_PAGE_ID, [some [20]]⟩], 0⟩

/-- Three pages: page 1 holds one row, page 2 is empty, page 3 holds one row. -/
def threePageHeap : TableHeap :=
  ⟨7, freshPool [⟨1, 2, [some [10]]⟩, ⟨2, 3, []⟩, ⟨3, INVALID_PAGE_ID, [some [30]]⟩], 0⟩

/-- An iterator of heap 7 at an address with a payload. -/
def iterAt (pid : Int) (slot : Nat) (f : Fields) : TableIterator :=
  ⟨7, ⟨⟨pid, slot⟩, some f⟩, some 1⟩

/-! ## The scan of the two-page heap -/

/-- The scan starts with an iterator constructed at the first row of the heap. -/
def scanStart : TableHeap × TableIterator :=
  TableIterator.Construct twoPageHeap ⟨1, 0⟩ (some 1)

/-- The first advance of the scan. -/
def scanStep1 : Step := scanStart.2.operator_pre_inc 5 scanStart.1

/-- The second advance of the scan. -/
def scanStep2 : Step := scanStep1.itr.operator_pre_inc 5 scanStep1.heap

/-- The third advance of the scan, applied at the last row. -/
def scanStep3 : Step := scanStep2.itr.operator_pre_inc 5 scanStep2.heap

/-- The pages after `P` in the chain: each page of `es` is in the cache under the
successor id of the page before it and holds no row, and `Q` is in the cache under the
successor id of the last of them (of `P` itself when `es` is empty). -/
def emptyRun (pages : List TablePage) : TablePage → List TablePage → TablePage → Prop
  | P, [], Q => P.GetNextPageId ≠ INVALID_PAGE_ID ∧ findPage pages P.GetNextPageId = some Q
  | P, E :: es, Q =>
    P.GetNextPageId ≠ INVALID_PAGE_ID ∧ findPage pages P.GetNextPageId = some E ∧
      E.GetFirstTupleRid = none ∧ emptyRun pages E es Q

/-- One page with a row in slot 0 whose successor id, 9, names a page the cache does
not hold. -/
def danglingHeap : TableHeap :=
  ⟨7, freshPool [⟨1, 9, [some [10]]⟩], 0⟩

/-! ## Iterator objects and the free store -/

/-- The free store: the Row objects created by `new Row`, each at the address given by its
position.  A new Row takes the next free address. -/
abbrev RowStore := List Row

/-- An iterator as the object of the source: `row` is the address of the Row it owns. -/
structure IteratorObject where
  table_heap : Nat
  row : Nat
  txn : Option Nat
deriving DecidableEq, Repr

/-- The iterator value an object stands for: its members, with the owned Row read from
the free store. -/
def IteratorObject.view (o : IteratorObject) (m : RowStore) : Option TableIterator :=
  (m.get? o.row).map (fun r => ⟨o.table_heap, r, o.txn⟩)

/-- Copy constructor on objects, `table_heap(other.table_heap), row(new Row(*other.row)),
txn(other.txn)`: the copy of the other's Row is a new object of the free store.  The
page cache is not among the arguments. -/
def IteratorObject.copy (other : IteratorObject) (m : RowStore) :
    Option (RowStore × IteratorObject) :=
  (other.view m).map (fun v =>
    (m ++ [(TableIterator.copy v).row],
      ⟨(TableIterator.copy v).table_heap, m.length, (TableIterator.copy v).txn⟩))

/-- Pre-increment on objects: the call of `operator++()` on the value of the object; when
it returns, `row = new Row(next_tuple_rid)` has made the member point to a new object of
the free store, which the fill has then written; when it throws, nothing is allocated. -/
def IteratorObject.operator_pre_inc (o : IteratorObject) (m : RowStore) (fuel : Nat)
    (h : TableHeap) : Option (RowStore × IteratorObject × Step) :=
  (o.view m).map (fun v =>
    let s := v.operator_pre_inc fuel h
    match s.outcome with
    | Outcome.returned => (m ++ [s.itr.row], ⟨o.table_heap, m.length, o.txn⟩, s)
    | _ => (m, o, s))

/-! ## Reading a call history -/

/-- The pins and read locks taken and not yet given back, per page id, at a point of a
call history. -/
structure Held where
  pins : Int → Int
  locks : Int → Int

/-- Nothing is held before a call. -/
def Held.nothing : Held := ⟨fun _ => 0, fun _ => 0⟩

/-- What is held after one more call of the history. -/
def Held.after (s : Held) : Event → Held
  | Event.fetch pid true => ⟨fun q => if q = pid then s.pins q + 1 else s.pins q, s.locks⟩
  | Event.unpin pid => ⟨fun q => if q = pid then s.pins q - 1 else s.pins q, s.locks⟩
  | Event.rlatch pid => ⟨s.pins, fun q => if q = pid then s.locks q + 1 else s.locks q⟩
  | Event.runlatch pid => ⟨s.pins, fun q => if q = pid then s.locks q - 1 else s.locks q⟩
  | _ => s

/-- The discipline of queries and locks: a query of a page (next row, first row, successor
id) is made while a pin and a read lock on that page are held, and a read lock is taken
while a pin on that page is held. -/
def Event.admissible (s : Held) : Event → Bool
  | Event.nextTupleRid pid _ => decide (0 < s.pins pid ∧ 0 < s.locks pid)
  | Event.firstTupleRid pid => decide (0 < s.pins pid ∧ 0 < s.locks pid)
  | Event.nextPageId pid => decide (0 < s.pins pid ∧ 0 < s.locks pid)
  | Event.rlatch pid => decide (0 < s.pins pid)
  | _ => true

/-- Every call of a history keeps the discipline of queries and locks. -/
def guarded : Held → List Event → Bool
  | _, [] => true
  | s, e :: es => e.admissible s && guarded (s.after e) es

/-- The discipline of hops: when a page is fetched and two pages were fetched before it,
neither a pin nor a read lock is still held on the older of those two.  `seen` lists the
pages fetched so far, the latest first. -/
def hopsRelease : Held → List Int → List Event → Bool
  | _, _, [] => true
  | s, seen, Event.fetch pid true :: es =>
    (match seen with
      | _ :: older :: _ => decide (s.pins older ≤ 0 ∧ s.locks older ≤ 0)
      | _ => true) &&
      hopsRelease (s.after (Event.fetch pid true)) (pid :: seen) es
  | s, seen, e :: es => hopsRelease (s.after e) seen es

/-- Whether a call is a fetch from the page cache. -/
def Event.isFetch : Event → Bool
  | Event.fetch _ _ => true
  | _ => false

/-- The number of fetches in a call history. -/
def fetchCount (es : List Event) : Nat := es.countP Event.isFetch

/-- The chain that starts at page id `pid` has exactly `n` pages, all of them held by the
cache, and then the invalid page id: following successor ids from `pid` reaches the
invalid id in `n` steps. -/
def chainFrom (pages : List TablePage) : Nat → Int → Prop
  | 0, pid => pid = INVALID_PAGE_ID
  | n + 1, pid =>
    pid ≠ INVALID_PAGE_ID ∧
      ∃ p, findPage pages pid = some p ∧ chainFrom pages n p.next_page_id

/-! ## Facts about the collaborators -/

@[simp] theorem record_pages (b : BufferPoolManager) (e : Event) :
    (b.record e).pages = b.pages := rfl

@[simp] theorem record_pin_count (b : BufferPoolManager) (e : Event) :
    (b.record e).pin_count = b.pin_count := rfl

@[simp] theorem record_reader_count (b : BufferPoolManager) (e : Event) :
    (b.record e).reader_count = b.reader_count := rfl

@[simp] theorem record_events (b : BufferPoolManager) (e : Event) :
    (b.record e).events = b.events ++ [e] := rfl

@[simp] theorem addPin_pages (b : BufferPoolManager) (pid : Int) :
    (b.addPin pid).pages = b.pages := rfl

@[simp] theorem addPin_events (b : BufferPoolManager) (pid : Int) :
    (b.addPin pid).events = b.events ++ [Event.fetch pid true] := rfl

@[simp] theorem UnpinPage_pages (b : BufferPoolManager) (pid : Int) :
    (b.UnpinPage pid).pages = b.pages := rfl

@[simp] theorem UnpinPage_events (b : BufferPoolManager) (pid : Int) :
    (b.UnpinPage pid).events = b.events ++ [Event.unpin pid] := rfl

@[simp] theorem RLatch_pages (b : BufferPoolManager) (pid : Int) :
    (b.RLatch pid).pages = b.pages := rfl

@[simp] theorem RLatch_events (b : BufferPoolManager) (pid : Int) :
    (b.RLatch pid).events = b.events ++ [Event.rlatch pid] := rfl

@[simp] theorem RUnlatch_pages (b : BufferPoolManager) (pid : Int) :
    (b.RUnlatch pid).pages = b.pages := rfl

@[simp] theorem RUnlatch_events (b : BufferPoolManager) (pid : Int) :
    (b.RUnlatch pid).events = b.events ++ [Event.runlatch pid] := rfl

@[simp] theorem withPool_pool (h : TableHeap) (b : BufferPoolManager) :
    (h.withPool b).buffer_pool_manager_ = b := rfl

@[simp] theorem withPool_heap_id (h : TableHeap) (b : BufferPoolManager) :
    (h.withPool b).heap_id = h.heap_id := rfl

@[simp] theorem withPool_withPool (h : TableHeap) (b c : BufferPoolManager) :
    (h.withPool b).withPool c = h.withPool c := rfl

/-- Filling a Row whose address the heap stores sets the payload and reports success. -/
theorem GetTuple_stored {h : TableHeap} {row : Row} {f : Fields} (txn : Option Nat)
    (hf : h.stored row.rid = some f) :
    h.GetTuple row txn =
      (h.withPool (h.buffer_pool_manager_.record (Event.getTuple row.rid txn)),
        ⟨row.rid, some f⟩, true) := by
  simp [TableHeap.GetTuple, hf]

@[simp] theorem withPool_end_slot (h : TableHeap) (b : BufferPoolManager) :
    (h.withPool b).end_slot = h.end_slot := rfl

/-- A page found under an id carries that id. -/
theorem findPage_page_id {pages : List TablePage} {pid : Int} {p : TablePage}
    (h : findPage pages pid = some p) : p.page_id = pid := by
  unfold findPage at h
  have h1 := List.find?_some h
  simpa using h1

/-- A fetch of a page the cache holds pins it and hands it out. -/
theorem FetchPage_hit {b : BufferPoolManager} {pid : Int} {p : TablePage}
    (h : findPage b.pages pid = some p) : b.FetchPage pid = (b.addPin pid, some p) := by
  simp [BufferPoolManager.FetchPage, BufferPoolManager.lookup, h]

/-- A fetch of a page the cache does not hold yields the null handle. -/
theorem FetchPage_miss {b : BufferPoolManager} {pid : Int}
    (h : findPage b.pages pid = none) :
    b.FetchPage pid = (b.record (Event.fetch pid false), none) := by
  simp [BufferPoolManager.FetchPage, BufferPoolManager.lookup, h]

/-- The slot reported by the slot search holds a row. -/
theorem firstLiveFrom_live : ∀ (slots : List (Option Fields)) (idx start i : Nat),
    firstLiveFrom slots idx start = some i →
      idx ≤ i ∧ ∃ f, slots.get? (i - idx) = some (some f)
  | [], _, _, _, h => by simp [firstLiveFrom] at h
  | s :: rest, idx, start, i, h => by
    unfold firstLiveFrom at h
    split at h
    · rename_i hc
      cases s with
      | none => simp at hc
      | some f =>
        have hi : idx = i := by simpa using h
        subst hi
        exact ⟨le_refl _, f, by simp⟩
    · obtain ⟨hle, f, hf⟩ := firstLiveFrom_live rest (idx + 1) start i h
      refine ⟨by omega, f, ?_⟩
      have hsub : i - idx = (i - (idx + 1)) + 1 := by omega
      rw [hsub]
      simpa using hf

/-- A page without a first row has no row after any slot. -/
theorem firstLiveFrom_none_of_zero : ∀ (slots : List (Option Fields)) (idx start : Nat),
    firstLiveFrom slots idx 0 = none → firstLiveFrom slots idx start = none
  | [], _, _, _ => by simp [firstLiveFrom]
  | s :: rest, idx, start, h => by
    unfold firstLiveFrom at h ⊢
    cases s with
    | some f => simp at h
    | none =>
      simp only [Option.isSome_none, Bool.false_eq_true, and_false, if_false] at h ⊢
      exact firstLiveFrom_none_of_zero rest (idx + 1) start h

/-- A row reported after a slot lies on the page asked and is stored there. -/
theorem GetNextTupleRid_on_page {p : TablePage} {cur n : RowId}
    (h : p.GetNextTupleRid cur = some n) :
    n.page_id = p.page_id ∧ ∃ f, p.rowAt n.slot_num = some f := by
  unfold TablePage.GetNextTupleRid at h
  cases hs : firstLiveFrom p.slots 0 (cur.slot_num + 1) with
  | none => simp [hs] at h
  | some i =>
    simp [hs] at h
    subst h
    obtain ⟨_, f, hf⟩ := firstLiveFrom_live _ _ _ _ hs
    have hf1 : p.slots[i]? = some (some f) := by simpa using hf
    exact ⟨rfl, f, by simp [TablePage.rowAt, hf1]⟩

/-- The first row reported by a page lies on that page and is stored there. -/
theorem GetFirstTupleRid_on_page {p : TablePage} {n : RowId}
    (h : p.GetFirstTupleRid = some n) :
    n.page_id = p.page_id ∧ ∃ f, p.rowAt n.slot_num = some f := by
  unfold TablePage.GetFirstTupleRid at h
  cases hs : firstLiveFrom p.slots 0 0 with
  | none => simp [hs] at h
  | some i =>
    simp [hs] at h
    subst h
    obtain ⟨_, f, hf⟩ := firstLiveFrom_live _ _ _ _ hs
    have hf1 : p.slots[i]? = some (some f) := by simpa using hf
    exact ⟨rfl, f, by simp [TablePage.rowAt, hf1]⟩

/-- A page without a first row reports no row after any address. -/
theorem GetNextTupleRid_none_of_empty {p : TablePage} (cur : RowId)
    (h : p.GetFirstTupleRid = none) : p.GetNextTupleRid cur = none := by
  unfold TablePage.GetFirstTupleRid at h
  unfold TablePage.GetNextTupleRid
  have h0 : firstLiveFrom p.slots 0 0 = none := by simpa using h
  simp [firstLiveFrom_none_of_zero _ _ _ h0]

/-! ## Facts about the page walk -/

/-- A row after the current one on the held page ends the pass at once. -/
theorem pass_found_on_page {b : BufferPoolManager} {P : TablePage} {rid n : RowId}
    (hnext : P.GetNextTupleRid rid = some n) :
    pass b P rid = Pass.found (b.record (Event.nextTupleRid P.page_id rid)) P n := by
  simp [pass, probe, hnext]

/-- No further row and no successor: the pass throws, still holding the page. -/
theorem pass_exhausted {b : BufferPoolManager} {P : TablePage} {rid : RowId}
    (hlast : P.GetNextTupleRid rid = none) (hend : P.GetNextPageId = INVALID_PAGE_ID) :
    pass b P rid =
      Pass.raised (((b.record (Event.nextTupleRid P.page_id rid)).record
        (Event.nextPageId P.page_id)).record (Event.nextPageId P.page_id))
        Fault.StorageInconsistency := by
  simp [pass, probe, hlast, hend]

@[simp] theorem hopPool_pages (b : BufferPoolManager) (P Q : TablePage) (rid : RowId) :
    (hopPool b P Q rid).pages = b.pages := rfl

/-- No further row on `P`, and its successor has a first row: the pass ends there. -/
theorem pass_hop_found {b : BufferPoolManager} {P Q : TablePage} {rid q : RowId}
    (hlast : P.GetNextTupleRid rid = none) (hsucc : P.GetNextPageId ≠ INVALID_PAGE_ID)
    (hQ : findPage b.pages P.GetNextPageId = some Q) (hq : Q.GetFirstTupleRid = some q) :
    pass b P rid = Pass.found (hopPool b P Q rid) Q q := by
  have hf : (((b.record (Event.nextTupleRid P.page_id rid)).record
      (Event.nextPageId P.page_id)).record (Event.nextPageId P.page_id)).FetchPage
        P.GetNextPageId = (_, some Q) := FetchPage_hit (by simpa using hQ)
  simp [pass, probe, hlast, hsucc, hf, hq, hopPool]

/-- No further row on `P`, and its successor is empty but has a successor of its own: the
loop goes round again with the successor as the current page. -/
theorem pass_hop_again {b : BufferPoolManager} {P E : TablePage} {rid : RowId}
    (hlast : P.GetNextTupleRid rid = none) (hsucc : P.GetNextPageId ≠ INVALID_PAGE_ID)
    (hE : findPage b.pages P.GetNextPageId = some E) (hempty : E.GetFirstTupleRid = none)
    (hmore : E.GetNextPageId ≠ INVALID_PAGE_ID) :
    pass b P rid =
      Pass.again (((((hopPool b P E rid).record (Event.nextPageId E.page_id)).RUnlatch
        E.page_id).UnpinPage E.GetTablePageId).RLatch E.page_id) E := by
  have hf : (((b.record (Event.nextTupleRid P.page_id rid)).record
      (Event.nextPageId P.page_id)).record (Event.nextPageId P.page_id)).FetchPage
        P.GetNextPageId = (_, some E) := FetchPage_hit (by simpa using hE)
  simp [pass, probe, hlast, hsucc, hf, hempty, hmore, hopPool]

/-- The successor named by a run is a valid page id. -/
theorem emptyRun_succ {pages : List TablePage} {P Q : TablePage} {es : List TablePage}
    (h : emptyRun pages P es Q) : P.GetNextPageId ≠ INVALID_PAGE_ID := by
  cases es with
  | nil => exact h.1
  | cons E es => exact h.1

/-- Across a run of empty pages the walk ends on the first row of the page after them. -/
theorem walk_skips_run (rid : RowId) : ∀ (es : List TablePage) (fuel : Nat)
    (b : BufferPoolManager) (P Q : TablePage) (q : RowId),
    es.length ≤ fuel → P.GetNextTupleRid rid = none → emptyRun b.pages P es Q →
    Q.GetFirstTupleRid = some q →
    ∃ b1, walk fuel b P rid = (b1, WalkResult.found Q q) ∧ b1.pages = b.pages
  | [], fuel, b, P, Q, q, _, hlast, hrun, hq => by
    have hp := pass_hop_found (b := b) hlast hrun.1 hrun.2 hq
    refine ⟨hopPool b P Q rid, ?_, rfl⟩
    cases fuel with
    | zero => simp [walk, hp]
    | succ k => simp [walk, hp]
  | E :: es, fuel, b, P, Q, q, hfuel, hlast, hrun, hq => by
    obtain ⟨hsucc, hE, hempty, hrest⟩ := hrun
    have hp := pass_hop_again (b := b) hlast hsucc hE hempty (emptyRun_succ hrest)
    cases fuel with
    | zero => simp at hfuel
    | succ k =>
      obtain ⟨b1, hw, hpages⟩ := walk_skips_run rid es k
        (((((hopPool b P E rid).record (Event.nextPageId E.page_id)).RUnlatch
          E.page_id).UnpinPage E.GetTablePageId).RLatch E.page_id) E Q q
        (by simpa using hfuel) (GetNextTupleRid_none_of_empty rid hempty)
        (by simpa using hrest) hq
      refine ⟨b1, ?_, by simpa using hpages⟩
      simp [walk, hp, hw]

/-- The page a run ends on carries a valid page id and is found under it. -/
theorem emptyRun_target {pages : List TablePage} : ∀ (es : List TablePage) (P Q : TablePage),
    emptyRun pages P es Q →
      Q.page_id ≠ INVALID_PAGE_ID ∧ findPage pages Q.page_id = some Q
  | [], P, Q, h => by
    have hid := findPage_page_id h.2
    rw [hid]
    exact ⟨h.1, h.2⟩
  | _ :: es, _, Q, h => emptyRun_target es _ Q h.2.2.2

/-- Once the walk has found the next address, a valid one that the heap stores, the
pre-increment repositions the iterator there, fills the Row with a null transaction, and
releases the page the walk ended on. -/
theorem pre_inc_of_walk_found (self : TableIterator) (fuel : Nat) (h : TableHeap)
    (P c : TablePage) (b : BufferPoolManager) (n : RowId) (f : Fields)
    (hP : findPage h.buffer_pool_manager_.pages self.row.rid.page_id = some P)
    (hw : walk fuel ((h.buffer_pool_manager_.addPin self.row.rid.page_id).RLatch P.page_id)
      P self.row.rid = (b, WalkResult.found c n))
    (hpages : b.pages = h.buffer_pool_manager_.pages)
    (hn : n.page_id ≠ INVALID_PAGE_ID) (hf : h.stored n = some f) :
    self.operator_pre_inc fuel h =
      ⟨h.withPool (((b.record (Event.getTuple n none)).RUnlatch c.page_id).UnpinPage c.page_id),
        { self with row := ⟨n, some f⟩ }, Outcome.returned⟩ := by
  have hfetch := FetchPage_hit hP
  have hstored : (h.withPool b).stored n = some f := by
    simpa [TableHeap.stored, BufferPoolManager.lookup, hpages] using hf
  have hne : (RowId.Get n = RowId.Get ⟨INVALID_PAGE_ID, h.end_slot⟩) = False := by
    simp only [RowId.Get, eq_iff_iff, iff_false]
    intro heq
    exact hn (congrArg Prod.fst heq)
  have hfill := @GetTuple_stored (h.withPool b) ⟨n, none⟩ f none hstored
  simp [TableIterator.operator_pre_inc, Row.GetRowId, RowId.GetPageId, hfetch, hw,
    TableIterator.operator_ne, TableIterator.operator_eq, TableHeap.End, Row.ofRowId,
    hfill, hne, TablePage.GetTablePageId]

/-- A pass that ends with a found address: the address lies on the page the pass ends
on, and that page is the page held or the successor fetched from the cache. -/
theorem pass_found_inv {b b1 : BufferPoolManager} {cur c : TablePage} {rid n : RowId}
    (h : pass b cur rid = Pass.found b1 c n) :
    n.page_id = c.page_id ∧
      (c = cur ∨ (cur.GetNextPageId ≠ INVALID_PAGE_ID ∧
        findPage b.pages cur.GetNextPageId = some c)) := by
  unfold pass probe at h
  cases hn : cur.GetNextTupleRid rid with
  | some m =>
    simp [hn] at h
    obtain ⟨_, hc, hm⟩ := h
    subst hc; subst hm
    exact ⟨(GetNextTupleRid_on_page hn).1, Or.inl rfl⟩
  | none =>
    by_cases hs : cur.GetNextPageId = INVALID_PAGE_ID
    · simp [hn, hs] at h
    · cases hf : findPage b.pages cur.GetNextPageId with
      | none =>
        have hm : (((b.record (Event.nextTupleRid cur.page_id rid)).record
            (Event.nextPageId cur.page_id)).record (Event.nextPageId cur.page_id)).FetchPage
              cur.GetNextPageId = (_, none) := FetchPage_miss (by simpa using hf)
        simp [hn, hs, hm] at h
      | some Q =>
        have hm : (((b.record (Event.nextTupleRid cur.page_id rid)).record
            (Event.nextPageId cur.page_id)).record (Event.nextPageId cur.page_id)).FetchPage
              cur.GetNextPageId = (_, some Q) := FetchPage_hit (by simpa using hf)
        cases hq : Q.GetFirstTupleRid with
        | none =>
          by_cases hQs : Q.GetNextPageId = INVALID_PAGE_ID
          · simp [hn, hs, hm, hq, hQs] at h
          · simp [hn, hs, hm, hq, hQs] at h
        | some m =>
          simp [hn, hs, hm, hq] at h
          obtain ⟨_, hc, hm1⟩ := h
          subst hc; subst hm1
          exact ⟨(GetFirstTupleRid_on_page hq).1, Or.inr ⟨hs, rfl⟩⟩

/-- A pass that sends the loop round again: the new current page is the successor
fetched from the cache, and the cache holds the same pages as before. -/
theorem pass_again_inv {b b1 : BufferPoolManager} {cur c : TablePage} {rid : RowId}
    (h : pass b cur rid = Pass.again b1 c) :
    cur.GetNextPageId ≠ INVALID_PAGE_ID ∧ findPage b.pages cur.GetNextPageId = some c ∧
      b1.pages = b.pages := by
  unfold pass probe at h
  cases hn : cur.GetNextTupleRid rid with
  | some m => simp [hn] at h
  | none =>
    by_cases hs : cur.GetNextPageId = INVALID_PAGE_ID
    · simp [hn, hs] at h
    · cases hf : findPage b.pages cur.GetNextPageId with
      | none =>
        have hm : (((b.record (Event.nextTupleRid cur.page_id rid)).record
            (Event.nextPageId cur.page_id)).record (Event.nextPageId cur.page_id)).FetchPage
              cur.GetNextPageId = (_, none) := FetchPage_miss (by simpa using hf)
        simp [hn, hs, hm] at h
      | some Q =>
        have hm : (((b.record (Event.nextTupleRid cur.page_id rid)).record
            (Event.nextPageId cur.page_id)).record (Event.nextPageId cur.page_id)).FetchPage
              cur.GetNextPageId = (_, some Q) := FetchPage_hit (by simpa using hf)
        cases hq : Q.GetFirstTupleRid with
        | some m => simp [hn, hs, hm, hq] at h
        | none =>
          by_cases hQs : Q.GetNextPageId = INVALID_PAGE_ID
          · simp [hn, hs, hm, hq, hQs] at h
          · simp [hn, hs, hm, hq, hQs] at h
            obtain ⟨hb, hc⟩ := h
            subst hc
            refine ⟨hs, rfl, ?_⟩
            rw [← hb]
            rfl

/-- The address a walk ends on never lies on the invalid page, when the walk starts on a
page with a valid id and the cache holds no page under the invalid id. -/
theorem walk_found_valid (rid : RowId) : ∀ (fuel : Nat) (b b1 : BufferPoolManager)
    (cur c : TablePage) (n : RowId),
    findPage b.pages INVALID_PAGE_ID = none → cur.page_id ≠ INVALID_PAGE_ID →
    walk fuel b cur rid = (b1, WalkResult.found c n) → n.page_id ≠ INVALID_PAGE_ID
  | 0, b, b1, cur, c, n, hnone, hcur, hw => by
    unfold walk at hw
    cases hp : pass b cur rid with
    | raised b2 f => simp [hp] at hw
    | again b2 c2 => simp [hp] at hw
    | found b2 c2 n2 =>
      simp [hp] at hw
      obtain ⟨_, hc, hn⟩ := hw
      subst hc; subst hn
      obtain ⟨hpage, hor⟩ := pass_found_inv hp
      rw [hpage]
      rcases hor with hc | ⟨hs, hf⟩
      · rw [hc]; exact hcur
      · rw [findPage_page_id hf]; exact hs
  | k + 1, b, b1, cur, c, n, hnone, hcur, hw => by
    unfold walk at hw
    cases hp : pass b cur rid with
    | raised b2 f => simp [hp] at hw
    | again b2 c2 =>
      simp [hp] at hw
      obtain ⟨hs, hf, hpages⟩ := pass_again_inv hp
      exact walk_found_valid rid k b2 b1 c2 c n (by rw [hpages]; exact hnone)
        (by rw [findPage_page_id hf]; exact hs) hw
    | found b2 c2 n2 =>
      simp [hp] at hw
      obtain ⟨_, hc, hn⟩ := hw
      subst hc; subst hn
      obtain ⟨hpage, hor⟩ := pass_found_inv hp
      rw [hpage]
      rcases hor with hc | ⟨hs, hf⟩
      · rw [hc]; exact hcur
      · rw [findPage_page_id hf]; exact hs

/-- On a cache that holds no page under the invalid id, a pre-increment that returns
never leaves the iterator at the end position of the heap: the end test after the walk
can only come out as "not at the end". -/
theorem pre_inc_never_returns_at_End (self : TableIterator) (fuel : Nat) (h : TableHeap)
    (hnone : h.buffer_pool_manager_.lookup INVALID_PAGE_ID = none)
    (hret : (self.operator_pre_inc fuel h).outcome = Outcome.returned) :
    (self.operator_pre_inc fuel h).itr.operator_eq (self.operator_pre_inc fuel h).heap.End
      = false := by
  have hnone1 : findPage h.buffer_pool_manager_.pages INVALID_PAGE_ID = none := hnone
  cases hP : findPage h.buffer_pool_manager_.pages self.row.rid.page_id with
  | none =>
    have hfetch := FetchPage_miss hP
    simp [TableIterator.operator_pre_inc, Row.GetRowId, RowId.GetPageId, hfetch] at hret
  | some P =>
    have hfetch := FetchPage_hit hP
    have hPid : P.page_id ≠ INVALID_PAGE_ID := by
      intro hbad
      rw [findPage_page_id hP] at hbad
      rw [hbad, hnone1] at hP
      cases hP
    cases hw : walk fuel ((h.buffer_pool_manager_.addPin self.row.rid.page_id).RLatch P.page_id)
        P self.row.rid with
    | mk b1 res =>
      cases res with
      | raised f =>
        simp [TableIterator.operator_pre_inc, Row.GetRowId, RowId.GetPageId, hfetch, hw] at hret
      | diverged =>
        simp [TableIterator.operator_pre_inc, Row.GetRowId, RowId.GetPageId, hfetch, hw] at hret
      | found c n =>
        have hn := walk_found_valid self.row.rid fuel _ b1 P c n (by simpa using hnone1) hPid hw
        have hne : (RowId.Get n = RowId.Get ⟨INVALID_PAGE_ID, h.end_slot⟩) = False := by
          simp only [RowId.Get, eq_iff_iff, iff_false]
          intro heq
          exact hn (congrArg Prod.fst heq)
        cases hs : (h.withPool b1).stored n with
        | none =>
          simp [TableIterator.operator_pre_inc, Row.GetRowId, RowId.GetPageId, hfetch, hw,
            TableIterator.operator_ne, TableIterator.operator_eq, TableHeap.End, Row.ofRowId,
            TableHeap.GetTuple, hs, hne]
        | some f =>
          simp [TableIterator.operator_pre_inc, Row.GetRowId, RowId.GetPageId, hfetch, hw,
            TableIterator.operator_ne, TableIterator.operator_eq, TableHeap.End, Row.ofRowId,
            TableHeap.GetTuple, hs, hne]

/-! ## Further facts about the pre-increment -/

/-- The address of a RowId determines the RowId. -/
theorem RowId_Get_inj (r s : RowId) : r.Get = s.Get ↔ r = s := by
  cases r; cases s
  simp [RowId.Get]

/-- A pre-increment never changes the heap reference or the transaction of the iterator. -/
theorem pre_inc_keeps_heap_and_txn (self : TableIterator) (fuel : Nat) (h : TableHeap) :
    (self.operator_pre_inc fuel h).itr.table_heap = self.table_heap ∧
    (self.operator_pre_inc fuel h).itr.txn = self.txn := by
  cases hP : findPage h.buffer_pool_manager_.pages self.row.rid.page_id with
  | none =>
    have hfetch := FetchPage_miss hP
    simp [TableIterator.operator_pre_inc, Row.GetRowId, RowId.GetPageId, hfetch]
  | some P =>
    have hfetch := FetchPage_hit hP
    cases hw : walk fuel ((h.buffer_pool_manager_.addPin self.row.rid.page_id).RLatch P.page_id)
        P self.row.rid with
    | mk b1 res =>
      cases res with
      | raised f =>
        simp [TableIterator.operator_pre_inc, Row.GetRowId, RowId.GetPageId, hfetch, hw]
      | diverged =>
        simp [TableIterator.operator_pre_inc, Row.GetRowId, RowId.GetPageId, hfetch, hw]
      | found c n =>
        simp only [TableIterator.operator_pre_inc, Row.GetRowId, RowId.GetPageId, hfetch, hw]
        split <;> simp

/-- A pre-increment that does not return leaves the iterator as it was. -/
theorem pre_inc_not_returned (self : TableIterator) (fuel : Nat) (h : TableHeap)
    (hout : (self.operator_pre_inc fuel h).outcome ≠ Outcome.returned) :
    (self.operator_pre_inc fuel h).itr = self := by
  cases hP : findPage h.buffer_pool_manager_.pages self.row.rid.page_id with
  | none =>
    have hfetch := FetchPage_miss hP
    simp [TableIterator.operator_pre_inc, Row.GetRowId, RowId.GetPageId, hfetch]
  | some P =>
    have hfetch := FetchPage_hit hP
    cases hw : walk fuel ((h.buffer_pool_manager_.addPin self.row.rid.page_id).RLatch P.page_id)
        P self.row.rid with
    | mk b1 res =>
      cases res with
      | raised f =>
        simp [TableIterator.operator_pre_inc, Row.GetRowId, RowId.GetPageId, hfetch, hw]
      | diverged =>
        simp [TableIterator.operator_pre_inc, Row.GetRowId, RowId.GetPageId, hfetch, hw]
      | found c n =>
        simp [TableIterator.operator_pre_inc, Row.GetRowId, RowId.GetPageId, hfetch, hw] at hout

/-! ## Facts about iterator objects -/

/-- An allocation leaves the Rows allocated before it where they are. -/
theorem view_after_alloc (o : IteratorObject) (m : RowStore) (x : Row) (v : TableIterator)
    (hv : o.view m = some v) : o.view (m ++ [x]) = some v := by
  obtain ⟨r, hr, hvr⟩ : ∃ r, m[o.row]? = some r ∧
      (⟨o.table_heap, r, o.txn⟩ : TableIterator) = v := by
    simpa [IteratorObject.view] using hv
  have hlt : o.row < m.length := by
    rcases Nat.lt_or_ge o.row m.length with hlt | hge
    · exact hlt
    · rw [List.getElem?_eq_none hge] at hr
      cases hr
  have hget : (m ++ [x])[o.row]? = some r := by
    rw [List.getElem?_append_left hlt]
    exact hr
  simp [IteratorObject.view, hget, hvr]

/-- The object whose Row is the one just allocated stands for that Row. -/
theorem view_of_alloc (t : Nat) (s : Option Nat) (m : RowStore) (x : Row) :
    (IteratorObject.mk t m.length s).view (m ++ [x]) = some ⟨t, x, s⟩ := by
  simp [IteratorObject.view]

/-- The members of an object are those of the value it stands for. -/
theorem view_members (o : IteratorObject) (m : RowStore) (v : TableIterator)
    (hv : o.view m = some v) : v.table_heap = o.table_heap ∧ v.txn = o.txn := by
  obtain ⟨r, _, hvr⟩ : ∃ r, m[o.row]? = some r ∧
      (⟨o.table_heap, r, o.txn⟩ : TableIterator) = v := by
    simpa [IteratorObject.view] using hv
  subst hvr
  exact ⟨rfl, rfl⟩

/-- The pre-increment of an object runs the pre-increment of its value, leaves the object
standing for the resulting iterator, and leaves every other object of the free store
standing for what it stood for. -/
theorem object_pre_inc (o : IteratorObject) (m : RowStore) (v : TableIterator) (fuel : Nat)
    (h : TableHeap) (hv : o.view m = some v) :
    ∃ m2 o2, o.operator_pre_inc m fuel h = some (m2, o2, v.operator_pre_inc fuel h) ∧
      o2.view m2 = some (v.operator_pre_inc fuel h).itr ∧
      ∀ (p : IteratorObject) (w : TableIterator), p.view m = some w → p.view m2 = some w := by
  obtain ⟨hheap, htxn⟩ := view_members o m v hv
  obtain ⟨hkh, hkt⟩ := pre_inc_keeps_heap_and_txn v fuel h
  cases hout : (v.operator_pre_inc fuel h).outcome with
  | returned =>
    refine ⟨m ++ [(v.operator_pre_inc fuel h).itr.row], ⟨o.table_heap, m.length, o.txn⟩, ?_, ?_,
      ?_⟩
    · simp [IteratorObject.operator_pre_inc, hv, hout]
    · rw [view_of_alloc, ← hheap, ← htxn, ← hkh, ← hkt]
    · intro p w hw
      exact view_after_alloc p m _ w hw
  | raised f =>
    have hitr := pre_inc_not_returned v fuel h (by rw [hout]; intro hc; cases hc)
    refine ⟨m, o, ?_, by rw [hitr]; exact hv, fun _ _ hw => hw⟩
    simp [IteratorObject.operator_pre_inc, hv, hout]
  | diverged =>
    have hitr := pre_inc_not_returned v fuel h (by rw [hout]; intro hc; cases hc)
    refine ⟨m, o, ?_, by rw [hitr]; exact hv, fun _ _ hw => hw⟩
    simp [IteratorObject.operator_pre_inc, hv, hout]

/-! ## Facts about termination and the fill -/

/-- A walk whose first pass finds the next address ends there, whatever its budget. -/
theorem walk_of_found {b b1 : BufferPoolManager} {cur c : TablePage} {rid n : RowId}
    (fuel : Nat) (hp : pass b cur rid = Pass.found b1 c n) :
    walk fuel b cur rid = (b1, WalkResult.found c n) := by
  cases fuel <;> simp [walk, hp]

/-- A walk whose first pass throws ends there, whatever its budget. -/
theorem walk_of_raised {b b1 : BufferPoolManager} {cur : TablePage} {rid : RowId} {f : Fault}
    (fuel : Nat) (hp : pass b cur rid = Pass.raised b1 f) :
    walk fuel b cur rid = (b1, WalkResult.raised f) := by
  cases fuel <;> simp [walk, hp]

/-- A walk whose first pass sends the loop round again goes on from the new page. -/
theorem walk_of_again {b b1 : BufferPoolManager} {cur c : TablePage} {rid : RowId}
    (fuel : Nat) (hp : pass b cur rid = Pass.again b1 c) :
    walk (fuel + 1) b cur rid = walk fuel b1 c rid := by
  simp [walk, hp]

/-- No further row on `P`, and its successor is empty and the last page of the chain: the
pass throws. -/
theorem pass_hop_exhausted {b : BufferPoolManager} {P E : TablePage} {rid : RowId}
    (hlast : P.GetNextTupleRid rid = none) (hsucc : P.GetNextPageId ≠ INVALID_PAGE_ID)
    (hE : findPage b.pages P.GetNextPageId = some E) (hempty : E.GetFirstTupleRid = none)
    (hend : E.GetNextPageId = INVALID_PAGE_ID) :
    pass b P rid =
      Pass.raised ((hopPool b P E rid).record (Event.nextPageId E.page_id))
        Fault.StorageInconsistency := by
  have hf : (((b.record (Event.nextTupleRid P.page_id rid)).record
      (Event.nextPageId P.page_id)).record (Event.nextPageId P.page_id)).FetchPage
        P.GetNextPageId = (_, some E) := FetchPage_hit (by simpa using hE)
  simp [pass, probe, hlast, hsucc, hf, hempty, hend, hopPool]

/-- The fetches of a history that has grown by one call. -/
theorem fetchCount_concat (es : List Event) (e : Event) :
    fetchCount (es ++ [e]) = fetchCount es + (if e.isFetch = true then 1 else 0) := by
  simp [fetchCount, List.countP_append, List.countP_cons]

/-- The condition of the loop makes exactly one fetch when it hops. -/
theorem hopPool_fetchCount (b : BufferPoolManager) (P Q : TablePage) (rid : RowId) :
    fetchCount (hopPool b P Q rid).events = fetchCount b.events + 1 := by
  simp [hopPool, fetchCount, List.countP_append, List.countP_cons, Event.isFetch]

/-- On a chain of `n` pages after the current page, all held by the cache, the walk ends
by finding an address or by a fault as soon as it may re-enter its body `n - 1` times, and
it fetches at most `n` pages. -/
theorem walk_terminates (rid : RowId) : ∀ (n fuel : Nat) (b : BufferPoolManager)
    (cur : TablePage), chainFrom b.pages n cur.next_page_id → n ≤ fuel + 1 →
    (walk fuel b cur rid).2 ≠ WalkResult.diverged ∧
      fetchCount (walk fuel b cur rid).1.events ≤ fetchCount b.events + n := by
  intro n
  induction n with
  | zero =>
    intro fuel b cur hchain _
    have hend : cur.GetNextPageId = INVALID_PAGE_ID := hchain
    cases hn : cur.GetNextTupleRid rid with
    | some m =>
      rw [walk_of_found fuel (pass_found_on_page hn)]
      exact ⟨(by intro hc; cases hc), by simp [fetchCount, List.countP_append, List.countP_cons, Event.isFetch]⟩
    | none =>
      rw [walk_of_raised fuel (pass_exhausted hn hend)]
      exact ⟨(by intro hc; cases hc), by simp [fetchCount, List.countP_append, List.countP_cons, Event.isFetch]⟩
  | succ k ih =>
    intro fuel b cur hchain hfuel
    obtain ⟨hsucc, Q, hQ, hrest⟩ := hchain
    cases hn : cur.GetNextTupleRid rid with
    | some m =>
      rw [walk_of_found fuel (pass_found_on_page hn)]
      exact ⟨(by intro hc; cases hc), by simp [fetchCount, List.countP_append, List.countP_cons, Event.isFetch]⟩
    | none =>
      cases hq : Q.GetFirstTupleRid with
      | some q =>
        rw [walk_of_found fuel (pass_hop_found hn hsucc hQ hq)]
        refine ⟨(by intro hc; cases hc), ?_⟩
        simp only [hopPool_fetchCount]
        omega
      | none =>
        by_cases hQend : Q.GetNextPageId = INVALID_PAGE_ID
        · rw [walk_of_raised fuel (pass_hop_exhausted hn hsucc hQ hq hQend)]
          refine ⟨(by intro hc; cases hc), ?_⟩
          simp [hopPool, fetchCount, List.countP_append, List.countP_cons, Event.isFetch]
        · have hp := pass_hop_again (b := b) hn hsucc hQ hq hQend
          cases fuel with
          | zero =>
            have hk : k = 0 := by omega
            subst hk
            exact absurd hrest hQend
          | succ f =>
            rw [walk_of_again f hp]
            have hcount : fetchCount (((((hopPool b cur Q rid).record
                (Event.nextPageId Q.page_id)).RUnlatch Q.page_id).UnpinPage
                  Q.GetTablePageId).RLatch Q.page_id).events = fetchCount b.events + 1 := by
              simp [hopPool, fetchCount, List.countP_append, List.countP_cons, Event.isFetch]
            obtain ⟨hne, hle⟩ := ih f (((((hopPool b cur Q rid).record
              (Event.nextPageId Q.page_id)).RUnlatch Q.page_id).UnpinPage
                Q.GetTablePageId).RLatch Q.page_id) Q (by simpa using hrest) (by omega)
            refine ⟨hne, ?_⟩
            rw [hcount] at hle
            omega

/-- The fill notes its call in the history and touches nothing else of the cache. -/
theorem GetTuple_events (h : TableHeap) (row : Row) (txn : Option Nat) :
    (h.GetTuple row txn).1.buffer_pool_manager_.events =
      h.buffer_pool_manager_.events ++ [Event.getTuple row.rid txn] := by
  unfold TableHeap.GetTuple
  cases h.stored row.rid <;> simp

/-- A pass that ends with a found address leaves the pages of the cache as they were, and
the page it ends on stores a row at that address. -/
theorem pass_found_stored {b b1 : BufferPoolManager} {cur c : TablePage} {rid n : RowId}
    (h : pass b cur rid = Pass.found b1 c n) :
    b1.pages = b.pages ∧ ∃ f, c.rowAt n.slot_num = some f := by
  unfold pass probe at h
  cases hn : cur.GetNextTupleRid rid with
  | some m =>
    simp [hn] at h
    obtain ⟨hb, hc, hm⟩ := h
    subst hc; subst hm; subst hb
    exact ⟨rfl, (GetNextTupleRid_on_page hn).2⟩
  | none =>
    by_cases hs : cur.GetNextPageId = INVALID_PAGE_ID
    · simp [hn, hs] at h
    · cases hf : findPage b.pages cur.GetNextPageId with
      | none =>
        have hm : (((b.record (Event.nextTupleRid cur.page_id rid)).record
            (Event.nextPageId cur.page_id)).record (Event.nextPageId cur.page_id)).FetchPage
              cur.GetNextPageId = (_, none) := FetchPage_miss (by simpa using hf)
        simp [hn, hs, hm] at h
      | some Q =>
        have hm : (((b.record (Event.nextTupleRid cur.page_id rid)).record
            (Event.nextPageId cur.page_id)).record (Event.nextPageId cur.page_id)).FetchPage
              cur.GetNextPageId = (_, some Q) := FetchPage_hit (by simpa using hf)
        cases hq : Q.GetFirstTupleRid with
        | none =>
          by_cases hQs : Q.GetNextPageId = INVALID_PAGE_ID
          · simp [hn, hs, hm, hq, hQs] at h
          · simp [hn, hs, hm, hq, hQs] at h
        | some m =>
          simp [hn, hs, hm, hq] at h
          obtain ⟨hb, hc, hm1⟩ := h
          subst hc; subst hm1; subst hb
          exact ⟨rfl, (GetFirstTupleRid_on_page hq).2⟩

/-- A walk that starts on a page the cache holds under its id ends, when it finds an
address, on such a page, which stores a row at that address. -/
theorem walk_found_stored (rid : RowId) : ∀ (fuel : Nat) (b b1 : BufferPoolManager)
    (cur c : TablePage) (n : RowId),
    findPage b.pages cur.page_id = some cur →
    walk fuel b cur rid = (b1, WalkResult.found c n) →
    b1.pages = b.pages ∧ findPage b.pages c.page_id = some c ∧ n.page_id = c.page_id ∧
      ∃ f, c.rowAt n.slot_num = some f
  | 0, b, b1, cur, c, n, hcur, hw => by
    unfold walk at hw
    cases hp : pass b cur rid with
    | raised b2 f => simp [hp] at hw
    | again b2 c2 => simp [hp] at hw
    | found b2 c2 n2 =>
      simp [hp] at hw
      obtain ⟨hb, hc, hn⟩ := hw
      subst hc; subst hn; subst hb
      obtain ⟨hpage, hor⟩ := pass_found_inv hp
      obtain ⟨hpages, hrow⟩ := pass_found_stored hp
      refine ⟨hpages, ?_, hpage, hrow⟩
      rcases hor with hc | ⟨_, hf⟩
      · rw [hc]; exact hcur
      · rw [findPage_page_id hf]; exact hf
  | k + 1, b, b1, cur, c, n, hcur, hw => by
    unfold walk at hw
    cases hp : pass b cur rid with
    | raised b2 f => simp [hp] at hw
    | again b2 c2 =>
      simp [hp] at hw
      obtain ⟨_, hf, hpages⟩ := pass_again_inv hp
      have hc2 : findPage b2.pages c2.page_id = some c2 := by
        rw [hpages, findPage_page_id hf]; exact hf
      obtain ⟨h1, h2, h3, h4⟩ := walk_found_stored rid k b2 b1 c2 c n hc2 hw
      exact ⟨h1.trans hpages, by rw [← hpages]; exact h2, h3, h4⟩
    | found b2 c2 n2 =>
      simp [hp] at hw
      obtain ⟨hb, hc, hn⟩ := hw
      subst hc; subst hn; subst hb
      obtain ⟨hpage, hor⟩ := pass_found_inv hp
      obtain ⟨hpages, hrow⟩ := pass_found_stored hp
      refine ⟨hpages, ?_, hpage, hrow⟩
      rcases hor with hc | ⟨_, hf⟩
      · rw [hc]; exact hcur
      · rw [findPage_page_id hf]; exact hf

/-- With `TableHeap.GetTuple` as the fill, whose only cause of a fault is an address the
heap does not store: on a cache that holds no page under the invalid id, a pre-increment
that returns has landed on an address the heap stores and has filled the Row with the
stored payload. -/
theorem pre_inc_returned_filled (self : TableIterator) (fuel : Nat) (h : TableHeap)
    (hnone : h.buffer_pool_manager_.lookup INVALID_PAGE_ID = none)
    (hret : (self.operator_pre_inc fuel h).outcome = Outcome.returned) :
    ∃ f, h.stored (self.operator_pre_inc fuel h).itr.row.rid = some f ∧
      (self.operator_pre_inc fuel h).itr.row.fields = some f := by
  have hnone1 : findPage h.buffer_pool_manager_.pages INVALID_PAGE_ID = none := hnone
  cases hP : findPage h.buffer_pool_manager_.pages self.row.rid.page_id with
  | none =>
    have hfetch := FetchPage_miss hP
    simp [TableIterator.operator_pre_inc, Row.GetRowId, RowId.GetPageId, hfetch] at hret
  | some P =>
    have hfetch := FetchPage_hit hP
    have hPid : P.page_id ≠ INVALID_PAGE_ID := by
      intro hbad
      rw [findPage_page_id hP] at hbad
      rw [hbad, hnone1] at hP
      cases hP
    have hPfound : findPage h.buffer_pool_manager_.pages P.page_id = some P := by
      rw [findPage_page_id hP]; exact hP
    cases hw : walk fuel ((h.buffer_pool_manager_.addPin self.row.rid.page_id).RLatch P.page_id)
        P self.row.rid with
    | mk b1 res =>
      cases res with
      | raised f =>
        simp [TableIterator.operator_pre_inc, Row.GetRowId, RowId.GetPageId, hfetch, hw] at hret
      | diverged =>
        simp [TableIterator.operator_pre_inc, Row.GetRowId, RowId.GetPageId, hfetch, hw] at hret
      | found c n =>
        have hn := walk_found_valid self.row.rid fuel _ b1 P c n (by simpa using hnone1) hPid hw
        obtain ⟨hpages, hc, hpage, f, hrow⟩ := walk_found_stored self.row.rid fuel _ b1 P c n
          (by simpa using hPfound) hw
        have hstored : h.stored n = some f := by
          have hc1 : findPage h.buffer_pool_manager_.pages c.page_id = some c := by
            simpa using hc
          simp [TableHeap.stored, BufferPoolManager.lookup, hpage, hc1, hrow]
        have hstep := pre_inc_of_walk_found self fuel h P c b1 n f hP hw (by simpa using hpages)
          hn hstored
        rw [hstep]
        exact ⟨f, hstored, rfl⟩

/-- A walk that has ended within its budget ends the same way with any larger budget. -/
theorem walk_budget_irrelevant (rid : RowId) : ∀ (k d : Nat) (b b1 : BufferPoolManager)
    (cur : TablePage) (r : WalkResult),
    walk k b cur rid = (b1, r) → r ≠ WalkResult.diverged → walk (k + d) b cur rid = (b1, r)
  | 0, d, b, b1, cur, r, hw, hr => by
    cases hp : pass b cur rid with
    | found b2 c n =>
      rw [walk_of_found 0 hp] at hw
      rw [walk_of_found (0 + d) hp]
      exact hw
    | raised b2 f =>
      rw [walk_of_raised 0 hp] at hw
      rw [walk_of_raised (0 + d) hp]
      exact hw
    | again b2 c =>
      simp [walk, hp] at hw
      exact absurd hw.2.symm hr
  | k + 1, d, b, b1, cur, r, hw, hr => by
    cases hp : pass b cur rid with
    | found b2 c n =>
      rw [walk_of_found (k + 1) hp] at hw
      rw [walk_of_found (k + 1 + d) hp]
      exact hw
    | raised b2 f =>
      rw [walk_of_raised (k + 1) hp] at hw
      rw [walk_of_raised (k + 1 + d) hp]
      exact hw
    | again b2 c =>
      rw [walk_of_again k hp] at hw
      have hkd : k + 1 + d = (k + d) + 1 := by omega
      rw [hkd, walk_of_again (k + d) hp]
      exact walk_budget_irrelevant rid k d b2 b1 c r hw hr

/-- A pre-increment that has ended within its budget, by returning or by a fault, ends in
the same state with any larger budget. -/
theorem pre_inc_budget_irrelevant (self : TableIterator) (k d : Nat) (h : TableHeap)
    (hout : (self.operator_pre_inc k h).outcome ≠ Outcome.diverged) :
    self.operator_pre_inc (k + d) h = self.operator_pre_inc k h := by
  cases hP : findPage h.buffer_pool_manager_.pages self.row.rid.page_id with
  | none =>
    have hfetch := FetchPage_miss hP
    simp [TableIterator.operator_pre_inc, Row.GetRowId, RowId.GetPageId, hfetch]
  | some P =>
    have hfetch := FetchPage_hit hP
    cases hw : walk k ((h.buffer_pool_manager_.addPin self.row.rid.page_id).RLatch P.page_id)
        P self.row.rid with
    | mk b1 res =>
      have hres : res ≠ WalkResult.diverged := by
        intro hc
        subst hc
        simp [TableIterator.operator_pre_inc, Row.GetRowId, RowId.GetPageId, hfetch, hw] at hout
      have hw2 := walk_budget_irrelevant self.row.rid k d _ b1 P res hw hres
      simp only [TableIterator.operator_pre_inc, Row.GetRowId, RowId.GetPageId, hfetch, hw, hw2]

/-- When the cache does not hold the page of the current RowId, the pre-increment throws
right after the failed fetch: nothing is pinned, locked or queried, and the iterator is
left as it was. -/
theorem pre_inc_first_fetch_miss (self : TableIterator) (fuel : Nat) (h : TableHeap)
    (hmiss : h.buffer_pool_manager_.lookup self.row.rid.page_id = none) :
    self.operator_pre_inc fuel h =
      ⟨h.withPool (h.buffer_pool_manager_.record (Event.fetch self.row.rid.page_id false)),
        self, Outcome.raised Fault.StorageInconsistency⟩ := by
  have hfetch := FetchPage_miss (b := h.buffer_pool_manager_) hmiss
  simp [TableIterator.operator_pre_inc, Row.GetRowId, RowId.GetPageId, hfetch]

/-- The constructor is the constructor over `TableHeap.GetTuple`. -/
theorem Construct_eq_ConstructWith (h : TableHeap) (rid : RowId) (txn : Option Nat) :
    TableIterator.Construct h rid txn =
      TableIterator.ConstructWith TableHeap.GetTuple h rid txn := rfl

/-- The pre-increment is the pre-increment over `TableHeap.GetTuple`. -/
theorem operator_pre_inc_eq_with (self : TableIterator) (fuel : Nat) (h : TableHeap) :
    self.operator_pre_inc fuel h = self.operator_pre_inc_with TableHeap.GetTuple fuel h := rfl

/-- Once the walk has found a next address on a valid page, the pre-increment over any
fill returns: the iterator carries the Row as the fill left it, whatever the fill
reported, and the page the walk ended on is released. -/
theorem pre_inc_with_of_walk_found (fill : Fill) (self : TableIterator) (fuel : Nat)
    (h : TableHeap) (P c : TablePage) (b : BufferPoolManager) (n : RowId)
    (hP : findPage h.buffer_pool_manager_.pages self.row.rid.page_id = some P)
    (hw : walk fuel ((h.buffer_pool_manager_.addPin self.row.rid.page_id).RLatch P.page_id)
      P self.row.rid = (b, WalkResult.found c n))
    (hn : n.page_id ≠ INVALID_PAGE_ID) :
    self.operator_pre_inc_with fill fuel h =
      ⟨(fill (h.withPool b) (Row.ofRowId n) none).1.withPool
          (((fill (h.withPool b) (Row.ofRowId n) none).1.buffer_pool_manager_.RUnlatch
            c.page_id).UnpinPage c.page_id),
        { self with row := (fill (h.withPool b) (Row.ofRowId n) none).2.1 },
        Outcome.returned⟩ := by
  have hfetch := FetchPage_hit hP
  have hne : (RowId.Get n = RowId.Get ⟨INVALID_PAGE_ID, h.end_slot⟩) = False := by
    simp only [RowId.Get, eq_iff_iff, iff_false]
    intro heq
    exact hn (congrArg Prod.fst heq)
  simp [TableIterator.operator_pre_inc_with, Row.GetRowId, RowId.GetPageId, hfetch, hw,
    TableIterator.operator_ne, TableIterator.operator_eq, TableHeap.End, Row.ofRowId,
    hne, TablePage.GetTablePageId]

/-- With `TableHeap.GetTuple` as the fill: when it reports a fault to the constructor, the
constructor completes after that one call, and the Row of the iterator has the address
asked for and an unset payload. -/
theorem Construct_on_GetTuple_fault (h : TableHeap) (rid : RowId) (txn : Option Nat)
    (hvalid : rid.page_id ≠ INVALID_PAGE_ID)
    (hfault : (h.GetTuple (Row.ofRowId rid) txn).2.2 = false) :
    (TableIterator.Construct h rid txn).2 = ⟨h.heap_id, ⟨rid, none⟩, txn⟩ ∧
    (TableIterator.Construct h rid txn).1.buffer_pool_manager_.events =
      h.buffer_pool_manager_.events ++ [Event.getTuple rid txn] := by
  refine ⟨?_, ?_⟩
  · cases hs : h.stored rid with
    | some f => simp [TableHeap.GetTuple, Row.ofRowId, hs] at hfault
    | none =>
      simp [TableIterator.Construct, RowId.GetPageId, hvalid, TableHeap.GetTuple, Row.ofRowId, hs]
  · simp [TableIterator.Construct, RowId.GetPageId, hvalid, GetTuple_events, Row.ofRowId]

/-! ## The claims -/

/-- C1 on the two-page heap of the scenario (page 1 with slots 0 and 1, page 2 with
slot 0): the scan from the first row visits page 1 slot 0, page 1 slot 1 and page 2 slot 0
with their payloads, and the advance applied at that last row does not return with the
iterator at the end position: it throws, and the iterator stays on page 2 slot 0. -/
theorem scan_two_pages_throws_at_last_row :
    scanStart.2.row = ⟨⟨1, 0⟩, some [10]⟩ ∧
    scanStep1.outcome = Outcome.returned ∧ scanStep1.itr.row = ⟨⟨1, 1⟩, some [11]⟩ ∧
    scanStep2.outcome = Outcome.returned ∧ scanStep2.itr.row = ⟨⟨2, 0⟩, some [20]⟩ ∧
    scanStep3.outcome = Outcome.raised Fault.StorageInconsistency ∧
    scanStep3.itr.row = ⟨⟨2, 0⟩, some [20]⟩ ∧
    scanStep3.itr.operator_eq scanStep3.heap.End = false := by
  decide

/-- C2: an iterator positioned at a valid row r of page P, where P reports a next row r1
after r, advances normally to r1 with the payload the heap stores at r1; the calls it
makes are exactly fetch P, lock P, the query, the fill, unlock P, unpin P, so no page
other than P is fetched. -/
theorem pre_inc_next_row_on_same_page (self : TableIterator) (fuel : Nat) (h : TableHeap)
    (P : TablePage) (r1 : RowId)
    (hvalid : self.row.rid.page_id ≠ INVALID_PAGE_ID)
    (hP : h.buffer_pool_manager_.lookup self.row.rid.page_id = some P)
    (hnext : P.GetNextTupleRid self.row.rid = some r1) :
    (self.operator_pre_inc fuel h).outcome = Outcome.returned ∧
    (self.operator_pre_inc fuel h).itr.row.rid = r1 ∧
    (∃ f, h.stored r1 = some f ∧ (self.operator_pre_inc fuel h).itr.row.fields = some f) ∧
    (self.operator_pre_inc fuel h).heap.buffer_pool_manager_.events =
      h.buffer_pool_manager_.events ++
        [Event.fetch P.page_id true, Event.rlatch P.page_id,
          Event.nextTupleRid P.page_id self.row.rid, Event.getTuple r1 none,
          Event.runlatch P.page_id, Event.unpin P.page_id] ∧
    (∀ pid hit, Event.fetch pid hit ∈
        (self.operator_pre_inc fuel h).heap.buffer_pool_manager_.events.drop
          h.buffer_pool_manager_.events.length → pid = P.page_id) := by
  have hP1 : findPage h.buffer_pool_manager_.pages self.row.rid.page_id = some P := hP
  have hid := findPage_page_id hP1
  obtain ⟨hpage, f, hf⟩ := GetNextTupleRid_on_page hnext
  have hstored : h.stored r1 = some f := by
    simp [TableHeap.stored, BufferPoolManager.lookup, hpage, hid, hP1, hf]
  have hw : walk fuel ((h.buffer_pool_manager_.addPin self.row.rid.page_id).RLatch P.page_id)
      P self.row.rid =
        (((h.buffer_pool_manager_.addPin self.row.rid.page_id).RLatch P.page_id).record
          (Event.nextTupleRid P.page_id self.row.rid), WalkResult.found P r1) := by
    cases fuel with
    | zero => simp [walk, pass_found_on_page hnext]
    | succ k => simp [walk, pass_found_on_page hnext]
  have hstep := pre_inc_of_walk_found self fuel h P P _ r1 f hP1 hw rfl
    (by rw [hpage, hid]; exact hvalid) hstored
  have hev : (self.operator_pre_inc fuel h).heap.buffer_pool_manager_.events =
      h.buffer_pool_manager_.events ++
        [Event.fetch P.page_id true, Event.rlatch P.page_id,
          Event.nextTupleRid P.page_id self.row.rid, Event.getTuple r1 none,
          Event.runlatch P.page_id, Event.unpin P.page_id] := by
    rw [hstep]
    simp [hid]
  refine ⟨by rw [hstep], by rw [hstep], ⟨f, hstored, by rw [hstep]⟩, hev, ?_⟩
  intro pid hit hmem
  rw [hev] at hmem
  simp at hmem
  exact hmem.1

/-- C2 at page 1 of the two-page heap: from slot 0 the advance lands on slot 1. -/
theorem pre_inc_next_row_on_same_page_witness :
    (iterAt 1 0 [10]).row.rid.page_id ≠ INVALID_PAGE_ID ∧
    twoPageHeap.buffer_pool_manager_.lookup 1 = some ⟨1, 2, [some [10], some [11]]⟩ ∧
    ((iterAt 1 0 [10]).operator_pre_inc 0 twoPageHeap).outcome = Outcome.returned ∧
    ((iterAt 1 0 [10]).operator_pre_inc 0 twoPageHeap).itr.row.rid = ⟨1, 1⟩ :=
  ⟨by decide, by decide,
    (pre_inc_next_row_on_same_page (iterAt 1 0 [10]) 0 twoPageHeap
      ⟨1, 2, [some [10], some [11]]⟩ ⟨1, 1⟩ (by decide) (by decide) (by decide)).1,
    (pre_inc_next_row_on_same_page (iterAt 1 0 [10]) 0 twoPageHeap
      ⟨1, 2, [some [10], some [11]]⟩ ⟨1, 1⟩ (by decide) (by decide) (by decide)).2.1⟩

/-- C3: an iterator at the last row of page P, where P is followed in the chain by the
pages of `es`, all without a first row, and then by a page Q with first row q, advances
normally to q with the payload the heap stores at q, whatever the length of `es`, as soon
as the loop may go round once per skipped page. -/
theorem pre_inc_skips_empty_pages (self : TableIterator) (fuel : Nat) (h : TableHeap)
    (P Q : TablePage) (es : List TablePage) (q : RowId)
    (hfuel : es.length ≤ fuel)
    (hP : h.buffer_pool_manager_.lookup self.row.rid.page_id = some P)
    (hlast : P.GetNextTupleRid self.row.rid = none)
    (hrun : emptyRun h.buffer_pool_manager_.pages P es Q)
    (hq : Q.GetFirstTupleRid = some q) :
    (self.operator_pre_inc fuel h).outcome = Outcome.returned ∧
    (self.operator_pre_inc fuel h).itr.row.rid = q ∧
    (∃ f, h.stored q = some f ∧ (self.operator_pre_inc fuel h).itr.row.fields = some f) := by
  have hP1 : findPage h.buffer_pool_manager_.pages self.row.rid.page_id = some P := hP
  obtain ⟨hQid, hQ⟩ := emptyRun_target es P Q hrun
  obtain ⟨hpage, f, hf⟩ := GetFirstTupleRid_on_page hq
  have hstored : h.stored q = some f := by
    simp [TableHeap.stored, BufferPoolManager.lookup, hpage, hQ, hf]
  obtain ⟨b1, hw, hpages⟩ := walk_skips_run self.row.rid es fuel
    ((h.buffer_pool_manager_.addPin self.row.rid.page_id).RLatch P.page_id) P Q q hfuel hlast
    (by simpa using hrun) hq
  have hstep := pre_inc_of_walk_found self fuel h P Q b1 q f hP1 hw (by simpa using hpages)
    (by rw [hpage]; exact hQid) hstored
  exact ⟨by rw [hstep], by rw [hstep], ⟨f, hstored, by rw [hstep]⟩⟩

/-- C3 on the three-page heap: from the only row of page 1 the advance skips the empty
page 2 and lands on the first row of page 3. -/
theorem pre_inc_skips_empty_pages_witness :
    [(⟨2, 3, []⟩ : TablePage)].length ≤ 1 ∧
    emptyRun threePageHeap.buffer_pool_manager_.pages ⟨1, 2, [some [10]]⟩ [⟨2, 3, []⟩]
      ⟨3, INVALID_PAGE_ID, [some [30]]⟩ ∧
    ((iterAt 1 0 [10]).operator_pre_inc 1 threePageHeap).outcome = Outcome.returned ∧
    ((iterAt 1 0 [10]).operator_pre_inc 1 threePageHeap).itr.row.rid = ⟨3, 0⟩ ∧
    (∃ f, threePageHeap.stored ⟨3, 0⟩ = some f ∧
      ((iterAt 1 0 [10]).operator_pre_inc 1 threePageHeap).itr.row.fields = some f) :=
  ⟨by decide, ⟨by decide, by decide, by decide, by decide, by decide⟩,
    pre_inc_skips_empty_pages (iterAt 1 0 [10]) 1 threePageHeap ⟨1, 2, [some [10]]⟩
      ⟨3, INVALID_PAGE_ID, [some [30]]⟩ [⟨2, 3, []⟩] ⟨3, 0⟩ (by decide) (by decide) (by decide)
      ⟨by decide, by decide, by decide, by decide, by decide⟩ (by decide)⟩

/-- C4 on the two-page heap: the advance from the last row of page 1 returns normally on
the first row of page 2, and afterwards page 1 still carries the pin and the read lock
taken in this call, while page 2 has been unlocked once without having been locked. -/
theorem hop_leaves_first_page_pinned_and_locked :
    ((iterAt 1 1 [11]).operator_pre_inc 5 twoPageHeap).outcome = Outcome.returned ∧
    ((iterAt 1 1 [11]).operator_pre_inc 5 twoPageHeap).itr.row = ⟨⟨2, 0⟩, some [20]⟩ ∧
    twoPageHeap.buffer_pool_manager_.pin_count 1 = 0 ∧
    ((iterAt 1 1 [11]).operator_pre_inc 5 twoPageHeap).heap.buffer_pool_manager_.pin_count 1 = 1 ∧
    twoPageHeap.buffer_pool_manager_.reader_count 1 = 0 ∧
    ((iterAt 1 1 [11]).operator_pre_inc 5 twoPageHeap).heap.buffer_pool_manager_.reader_count 1
      = 1 ∧
    twoPageHeap.buffer_pool_manager_.reader_count 2 = 0 ∧
    ((iterAt 1 1 [11]).operator_pre_inc 5 twoPageHeap).heap.buffer_pool_manager_.reader_count 2
      = -1 ∧
    ((iterAt 1 1 [11]).operator_pre_inc 5 twoPageHeap).heap.buffer_pool_manager_.events =
      [Event.fetch 1 true, Event.rlatch 1, Event.nextTupleRid 1 ⟨1, 1⟩, Event.nextPageId 1,
        Event.nextPageId 1, Event.fetch 2 true, Event.firstTupleRid 2,
        Event.getTuple ⟨2, 0⟩ none, Event.runlatch 2, Event.unpin 2] := by
  decide

/-- C5 on the two-page heap: the advance from the last row of the last page ends in the
fault "Failed to find next tuple", and when the fault leaves the call page 2 still carries
the pin and the read lock taken in this call. -/
theorem exhausted_fault_leaves_page_pinned_and_locked :
    ((iterAt 2 0 [20]).operator_pre_inc 5 twoPageHeap).outcome =
      Outcome.raised Fault.StorageInconsistency ∧
    twoPageHeap.buffer_pool_manager_.pin_count 2 = 0 ∧
    ((iterAt 2 0 [20]).operator_pre_inc 5 twoPageHeap).heap.buffer_pool_manager_.pin_count 2 = 1 ∧
    twoPageHeap.buffer_pool_manager_.reader_count 2 = 0 ∧
    ((iterAt 2 0 [20]).operator_pre_inc 5 twoPageHeap).heap.buffer_pool_manager_.reader_count 2
      = 1 ∧
    ((iterAt 2 0 [20]).operator_pre_inc 5 twoPageHeap).heap.buffer_pool_manager_.events =
      [Event.fetch 2 true, Event.rlatch 2, Event.nextTupleRid 2 ⟨2, 0⟩, Event.nextPageId 2,
        Event.nextPageId 2] := by
  decide

/-- C6: an iterator on a page that has no row after the current RowId and whose successor
page id is invalid does not return from the advance: the StorageInconsistency fault is
raised, for every budget of the loop. -/
theorem pre_inc_chain_exhausted (self : TableIterator) (fuel : Nat) (h : TableHeap)
    (P : TablePage)
    (hP : h.buffer_pool_manager_.lookup self.row.rid.page_id = some P)
    (hlast : P.GetNextTupleRid self.row.rid = none)
    (hend : P.GetNextPageId = INVALID_PAGE_ID) :
    (self.operator_pre_inc fuel h).outcome = Outcome.raised Fault.StorageInconsistency ∧
    (self.operator_pre_inc fuel h).outcome ≠ Outcome.returned := by
  have hP1 : findPage h.buffer_pool_manager_.pages self.row.rid.page_id = some P := hP
  have hfetch := FetchPage_hit hP1
  have hout : (self.operator_pre_inc fuel h).outcome =
      Outcome.raised Fault.StorageInconsistency := by
    cases fuel with
    | zero =>
      simp [TableIterator.operator_pre_inc, Row.GetRowId, RowId.GetPageId, hfetch, walk,
        pass_exhausted hlast hend]
    | succ k =>
      simp [TableIterator.operator_pre_inc, Row.GetRowId, RowId.GetPageId, hfetch, walk,
        pass_exhausted hlast hend]
  exact ⟨hout, by rw [hout]; decide⟩

/-- C6 at the last row of the two-page heap. -/
theorem pre_inc_chain_exhausted_witness :
    twoPageHeap.buffer_pool_manager_.lookup 2 = some ⟨2, INVALID_PAGE_ID, [some [20]]⟩ ∧
    ((iterAt 2 0 [20]).operator_pre_inc 3 twoPageHeap).outcome =
      Outcome.raised Fault.StorageInconsistency :=
  ⟨by decide,
    (pre_inc_chain_exhausted (iterAt 2 0 [20]) 3 twoPageHeap ⟨2, INVALID_PAGE_ID, [some [20]]⟩
      (by decide) (by decide) (by decide)).1⟩

/-- C7, as stated, fails on the two-page heap: the advance of the end iterator does not
raise the ProgrammingError; the fault it raises is the StorageInconsistency thrown for the
failed fetch of the page with the invalid id. -/
theorem advance_at_End_is_not_ProgrammingError :
    twoPageHeap.End.operator_eq twoPageHeap.End = true ∧
    (twoPageHeap.End.operator_pre_inc 5 twoPageHeap).outcome ≠
      Outcome.raised Fault.ProgrammingError ∧
    (twoPageHeap.End.operator_pre_inc 5 twoPageHeap).outcome =
      Outcome.raised Fault.StorageInconsistency ∧
    (twoPageHeap.End.operator_post_inc 5 twoPageHeap).1.outcome ≠
      Outcome.raised Fault.ProgrammingError := by
  decide

/-- C7, amended: for every iterator equal to the end position, on a cache that holds no
page under the invalid page id, pre- and post-increment end in the StorageInconsistency
fault of the failed page fetch; they do not return, the post-increment hands out no
snapshot, and the iterator is left as it was, still equal to the end position. -/
theorem advance_at_End_raises_fetch_fault (self : TableIterator) (fuel : Nat) (h : TableHeap)
    (hend : self.operator_eq h.End = true)
    (hnone : h.buffer_pool_manager_.lookup INVALID_PAGE_ID = none) :
    (self.operator_pre_inc fuel h).outcome = Outcome.raised Fault.StorageInconsistency ∧
    (self.operator_pre_inc fuel h).itr = self ∧
    (self.operator_pre_inc fuel h).itr.operator_eq (self.operator_pre_inc fuel h).heap.End
      = true ∧
    (self.operator_post_inc fuel h).1.outcome = Outcome.raised Fault.StorageInconsistency ∧
    (self.operator_post_inc fuel h).2 = none ∧
    (self.operator_post_inc fuel h).1.itr = self ∧
    (self.operator_post_inc fuel h).1.itr.operator_eq (self.operator_post_inc fuel h).1.heap.End
      = true := by
  have hpid : self.row.rid.page_id = INVALID_PAGE_ID := by
    have h1 : self.row.rid.Get = (h.End).row.rid.Get := by
      simpa [TableIterator.operator_eq, Row.GetRowId] using hend
    exact congrArg Prod.fst h1
  have hmiss : findPage h.buffer_pool_manager_.pages self.row.rid.page_id = none := by
    rw [hpid]; exact hnone
  have hfetch := FetchPage_miss hmiss
  have hstep : self.operator_pre_inc fuel h =
      ⟨h.withPool (h.buffer_pool_manager_.record (Event.fetch self.row.rid.page_id false)),
        self, Outcome.raised Fault.StorageInconsistency⟩ := by
    simp [TableIterator.operator_pre_inc, Row.GetRowId, RowId.GetPageId, hfetch]
  have hend1 : self.operator_eq
      (h.withPool (h.buffer_pool_manager_.record
        (Event.fetch self.row.rid.page_id false))).End = true := hend
  refine ⟨by rw [hstep], by rw [hstep], by rw [hstep]; exact hend1, ?_, ?_, ?_, ?_⟩
  · simp [TableIterator.operator_post_inc, hstep]
  · simp [TableIterator.operator_post_inc, hstep]
  · simp [TableIterator.operator_post_inc, hstep]
  · simp only [TableIterator.operator_post_inc, hstep]
    exact hend1

/-- C7, amended, at the end iterator of the two-page heap. -/
theorem advance_at_End_raises_fetch_fault_witness :
    twoPageHeap.End.operator_eq twoPageHeap.End = true ∧
    twoPageHeap.buffer_pool_manager_.lookup INVALID_PAGE_ID = none ∧
    (twoPageHeap.End.operator_pre_inc 2 twoPageHeap).outcome =
      Outcome.raised Fault.StorageInconsistency ∧
    (twoPageHeap.End.operator_pre_inc 2 twoPageHeap).itr = twoPageHeap.End :=
  ⟨by decide, by decide,
    (advance_at_End_raises_fetch_fault twoPageHeap.End 2 twoPageHeap (by decide) (by decide)).1,
    (advance_at_End_raises_fetch_fault twoPageHeap.End 2 twoPageHeap (by decide)
      (by decide)).2.1⟩

/-- C8: both forms of dereference give the ProgrammingError when the iterator equals the
end position of its heap and the current Row of the iterator, address and payload,
otherwise; so they fail with that fault exactly when the iterator equals the end
position.  Neither form changes the iterator: both only read it. -/
theorem deref_faults_exactly_at_End (self : TableIterator) (h : TableHeap) :
    self.operator_deref h =
      (if self.operator_eq h.End = true then Except.error Fault.ProgrammingError
        else Except.ok self.row) ∧
    self.operator_arrow h =
      (if self.operator_eq h.End = true then Except.error Fault.ProgrammingError
        else Except.ok self.row) ∧
    (self.operator_deref h = Except.error Fault.ProgrammingError ↔
      self.operator_eq h.End = true) ∧
    (self.operator_arrow h = Except.error Fault.ProgrammingError ↔
      self.operator_eq h.End = true) := by
  cases hc : self.operator_eq h.End <;>
    simp [TableIterator.operator_deref, TableIterator.operator_arrow,
      TableIterator.operator_ne, hc]

/-- C9: for a RowId r whose page id is not the invalid one and at which the heap stores a
row, the constructor calls the fill of the heap exactly once, with r and the given
transaction, and yields an iterator whose Row has address r and the stored payload (and
which keeps the given transaction). -/
theorem Construct_at_stored_row (h : TableHeap) (rid : RowId) (txn : Option Nat) (f : Fields)
    (hvalid : rid.page_id ≠ INVALID_PAGE_ID) (hstored : h.stored rid = some f) :
    (TableIterator.Construct h rid txn).2.row = ⟨rid, some f⟩ ∧
    (TableIterator.Construct h rid txn).2.txn = txn ∧
    (TableIterator.Construct h rid txn).1.buffer_pool_manager_.events =
      h.buffer_pool_manager_.events ++ [Event.getTuple rid txn] ∧
    (TableIterator.Construct h rid txn).1.buffer_pool_manager_.pin_count =
      h.buffer_pool_manager_.pin_count ∧
    (TableIterator.Construct h rid txn).1.buffer_pool_manager_.reader_count =
      h.buffer_pool_manager_.reader_count := by
  have hfill := @GetTuple_stored h ⟨rid, none⟩ f txn hstored
  simp [TableIterator.Construct, RowId.GetPageId, hvalid, hfill, Row.ofRowId]

/-- C9 at page 1, slot 1 of the two-page heap with transaction 4. -/
theorem Construct_at_stored_row_witness :
    (RowId.mk 1 1).page_id ≠ INVALID_PAGE_ID ∧ twoPageHeap.stored ⟨1, 1⟩ = some [11] ∧
    (TableIterator.Construct twoPageHeap ⟨1, 1⟩ (some 4)).2.row = ⟨⟨1, 1⟩, some [11]⟩ ∧
    (TableIterator.Construct twoPageHeap ⟨1, 1⟩ (some 4)).1.buffer_pool_manager_.events =
      twoPageHeap.buffer_pool_manager_.events ++ [Event.getTuple ⟨1, 1⟩ (some 4)] :=
  ⟨by decide, by decide,
    (Construct_at_stored_row twoPageHeap ⟨1, 1⟩ (some 4) [11] (by decide) (by decide)).1,
    (Construct_at_stored_row twoPageHeap ⟨1, 1⟩ (some 4) [11] (by decide) (by decide)).2.2.1⟩

/-- C10, as stated, fails on the two-page heap, whose end address is slot 0 of the
invalid page: the iterator constructed at slot 1 of the invalid page does not compare
equal to the end position. -/
theorem Construct_invalid_page_other_slot_ne_End :
    (RowId.mk INVALID_PAGE_ID 1).GetPageId = INVALID_PAGE_ID ∧
    (TableIterator.Construct twoPageHeap ⟨INVALID_PAGE_ID, 1⟩ (some 1)).2.operator_eq
      twoPageHeap.End = false := by
  decide

/-- C10, amended: for a RowId whose page id is the invalid one the constructor makes no
fill call and no cache access, the heap and its cache are left exactly as they were, and
the iterator compares equal to the end position of the heap exactly when the slot of the
RowId is the slot of the end address. -/
theorem Construct_invalid_page (h : TableHeap) (rid : RowId) (txn : Option Nat)
    (hinv : rid.page_id = INVALID_PAGE_ID) :
    (TableIterator.Construct h rid txn).1 = h ∧
    (TableIterator.Construct h rid txn).2.row = Row.ofRowId rid ∧
    ((TableIterator.Construct h rid txn).2.operator_eq h.End = true ↔
      rid.slot_num = h.end_slot) := by
  simp [TableIterator.Construct, RowId.GetPageId, hinv, TableIterator.operator_eq,
    Row.GetRowId, RowId.Get, TableHeap.End, Row.ofRowId]

/-- C10, amended, at the end address of the two-page heap and at another slot. -/
theorem Construct_invalid_page_witness :
    (RowId.mk INVALID_PAGE_ID 0).page_id = INVALID_PAGE_ID ∧
    (TableIterator.Construct twoPageHeap ⟨INVALID_PAGE_ID, 0⟩ (some 1)).1 = twoPageHeap ∧
    ((TableIterator.Construct twoPageHeap ⟨INVALID_PAGE_ID, 0⟩ (some 1)).2.operator_eq
      twoPageHeap.End = true ↔ (RowId.mk INVALID_PAGE_ID 0).slot_num = twoPageHeap.end_slot) :=
  ⟨by decide,
    (Construct_invalid_page twoPageHeap ⟨INVALID_PAGE_ID, 0⟩ (some 1) (by decide)).1,
    (Construct_invalid_page twoPageHeap ⟨INVALID_PAGE_ID, 0⟩ (some 1) (by decide)).2.2⟩

/-- C11: two iterators compare equal exactly when their current RowIds, page id and slot,
are the same; payload, owning heap and transaction play no part; `!=` is the negation of
`==`; and `==` is reflexive, symmetric and transitive. -/
theorem operator_eq_iff_same_RowId (a b : TableIterator) :
    (a.operator_eq b = true ↔ a.row.rid = b.row.rid) ∧
    (a.operator_eq b = true ↔
      a.row.rid.page_id = b.row.rid.page_id ∧ a.row.rid.slot_num = b.row.rid.slot_num) ∧
    (∀ (i j : Nat) (f g : Option Fields) (s t : Option Nat),
      TableIterator.operator_eq ⟨i, ⟨a.row.rid, f⟩, s⟩ ⟨j, ⟨b.row.rid, g⟩, t⟩ =
        a.operator_eq b) ∧
    a.operator_ne b = !(a.operator_eq b) ∧
    Equivalence (fun x y : TableIterator => x.operator_eq y = true) := by
  have hiff : ∀ x y : TableIterator, x.operator_eq y = true ↔ x.row.rid = y.row.rid := by
    intro x y
    simp [TableIterator.operator_eq, Row.GetRowId, RowId_Get_inj]
  refine ⟨hiff a b, ?_, ?_, rfl, ⟨?_, ?_, ?_⟩⟩
  · rw [hiff]
    cases a.row.rid; cases b.row.rid
    simp
  · intro i j f g s t
    rfl
  · intro x
    exact (hiff x x).2 rfl
  · intro x y hxy
    exact (hiff y x).2 ((hiff x y).1 hxy).symm
  · intro x y z hxy hyz
    exact (hiff x z).2 (((hiff x y).1 hxy).trans ((hiff y z).1 hyz))

/-- C12: the copy B of an iterator object A stands for the same iterator value as A, with
the same address, payload, heap reference and transaction; making it takes a new Row in
the free store and involves no page cache; and after an advance of A, returning or not,
B still stands for that value, as A does after an advance of B. -/
theorem copy_is_independent (m : RowStore) (A : IteratorObject) (a : TableIterator)
    (fuel : Nat) (h : TableHeap) (hA : A.view m = some a) :
    A.copy m = some (m ++ [a.row], ⟨A.table_heap, m.length, A.txn⟩) ∧
    (IteratorObject.mk A.table_heap m.length A.txn).view (m ++ [a.row]) = some a ∧
    A.view (m ++ [a.row]) = some a ∧
    (∃ m2 A2, A.operator_pre_inc (m ++ [a.row]) fuel h =
        some (m2, A2, a.operator_pre_inc fuel h) ∧
      A2.view m2 = some (a.operator_pre_inc fuel h).itr ∧
      (IteratorObject.mk A.table_heap m.length A.txn).view m2 = some a) ∧
    (∃ m2 B2, (IteratorObject.mk A.table_heap m.length A.txn).operator_pre_inc
        (m ++ [a.row]) fuel h = some (m2, B2, a.operator_pre_inc fuel h) ∧
      B2.view m2 = some (a.operator_pre_inc fuel h).itr ∧
      A.view m2 = some a) := by
  obtain ⟨hheap, htxn⟩ := view_members A m a hA
  have hB : (IteratorObject.mk A.table_heap m.length A.txn).view (m ++ [a.row]) = some a := by
    rw [view_of_alloc, ← hheap, ← htxn]
  have hA1 : A.view (m ++ [a.row]) = some a := view_after_alloc A m a.row a hA
  refine ⟨?_, hB, hA1, ?_, ?_⟩
  · simp [IteratorObject.copy, hA, TableIterator.copy, hheap, htxn]
  · obtain ⟨m2, A2, hrun, hview, hframe⟩ := object_pre_inc A (m ++ [a.row]) a fuel h hA1
    exact ⟨m2, A2, hrun, hview, hframe _ a hB⟩
  · obtain ⟨m2, B2, hrun, hview, hframe⟩ :=
      object_pre_inc (IteratorObject.mk A.table_heap m.length A.txn) (m ++ [a.row]) a fuel h hB
    exact ⟨m2, B2, hrun, hview, hframe _ a hA1⟩

/-- C12 for an iterator object on page 1 slot 0 of the two-page heap: after the copy and
an advance of the original to slot 1, the copy still stands for slot 0 with its payload. -/
theorem copy_is_independent_witness :
    (IteratorObject.mk 7 0 (some 1)).view [⟨⟨1, 0⟩, some [10]⟩] = some (iterAt 1 0 [10]) ∧
    (IteratorObject.mk 7 0 (some 1)).copy [⟨⟨1, 0⟩, some [10]⟩] =
      some ([⟨⟨1, 0⟩, some [10]⟩] ++ [(iterAt 1 0 [10]).row], ⟨7, 1, some 1⟩) ∧
    (∃ m2 A2, (IteratorObject.mk 7 0 (some 1)).operator_pre_inc
        ([⟨⟨1, 0⟩, some [10]⟩] ++ [(iterAt 1 0 [10]).row]) 2 twoPageHeap =
        some (m2, A2, (iterAt 1 0 [10]).operator_pre_inc 2 twoPageHeap) ∧
      A2.view m2 = some ((iterAt 1 0 [10]).operator_pre_inc 2 twoPageHeap).itr ∧
      (IteratorObject.mk 7 1 (some 1)).view m2 = some (iterAt 1 0 [10])) ∧
    ((iterAt 1 0 [10]).operator_pre_inc 2 twoPageHeap).itr.row = ⟨⟨1, 1⟩, some [11]⟩ :=
  ⟨by decide,
    (copy_is_independent [⟨⟨1, 0⟩, some [10]⟩] ⟨7, 0, some 1⟩ (iterAt 1 0 [10]) 2 twoPageHeap
      (by decide)).1,
    (copy_is_independent [⟨⟨1, 0⟩, some [10]⟩] ⟨7, 0, some 1⟩ (iterAt 1 0 [10]) 2 twoPageHeap
      (by decide)).2.2.2.1,
    by decide⟩

/-- C13: when the pre-increment of an iterator returns, the post-increment from the same
state returns a snapshot with the address and payload (and heap reference and
transaction) the iterator had before the call, and leaves the iterator, the heap and the
page cache exactly as the pre-increment leaves them. -/
theorem post_inc_returns_snapshot (self : TableIterator) (fuel : Nat) (h : TableHeap)
    (hret : (self.operator_pre_inc fuel h).outcome = Outcome.returned) :
    (self.operator_post_inc fuel h).2 = some self ∧
    (∃ old, (self.operator_post_inc fuel h).2 = some old ∧ old.row.rid = self.row.rid ∧
      old.row.fields = self.row.fields) ∧
    (self.operator_post_inc fuel h).1 = self.operator_pre_inc fuel h ∧
    (self.operator_post_inc fuel h).1.itr = (self.operator_pre_inc fuel h).itr ∧
    (self.operator_post_inc fuel h).1.heap.buffer_pool_manager_ =
      (self.operator_pre_inc fuel h).heap.buffer_pool_manager_ := by
  have hpost : self.operator_post_inc fuel h = (self.operator_pre_inc fuel h, some self) := by
    simp [TableIterator.operator_post_inc, hret, TableIterator.copy]
  rw [hpost]
  exact ⟨rfl, ⟨self, rfl, rfl, rfl⟩, rfl, rfl, rfl⟩

/-- C13 at the first row of the two-page heap: `old = it++` leaves `old` on page 1 slot 0
and `it` on page 1 slot 1. -/
theorem post_inc_returns_snapshot_witness :
    ((iterAt 1 0 [10]).operator_pre_inc 2 twoPageHeap).outcome = Outcome.returned ∧
    ((iterAt 1 0 [10]).operator_post_inc 2 twoPageHeap).2 = some (iterAt 1 0 [10]) ∧
    ((iterAt 1 0 [10]).operator_post_inc 2 twoPageHeap).1.itr.row = ⟨⟨1, 1⟩, some [11]⟩ :=
  ⟨by decide,
    (post_inc_returns_snapshot (iterAt 1 0 [10]) 2 twoPageHeap (by decide)).1,
    by decide⟩

/-- C14 on the two-page heap: an iterator constructed with transaction 1 advances from
page 1 slot 0 to page 1 slot 1, a row that is not the end position, and the fill call of
that advance receives the null transaction, not transaction 1, although the constructor
before it passed transaction 1 and the iterator still carries it. -/
theorem advance_fills_with_null_txn :
    scanStart.2.txn = some 1 ∧
    scanStart.1.buffer_pool_manager_.events = [Event.getTuple ⟨1, 0⟩ (some 1)] ∧
    scanStep1.outcome = Outcome.returned ∧
    scanStep1.itr.row = ⟨⟨1, 1⟩, some [11]⟩ ∧
    scanStep1.itr.operator_eq scanStep1.heap.End = false ∧
    scanStep1.itr.txn = some 1 ∧
    Event.getTuple ⟨1, 1⟩ none ∈ scanStep1.heap.buffer_pool_manager_.events ∧
    Event.getTuple ⟨1, 1⟩ (some 1) ∉ scanStep1.heap.buffer_pool_manager_.events := by
  decide

/-- C15, as stated, fails in the constructor and in the advance.  On the two-page heap, at
page 1 slot 5, where the heap stores no row, `TableHeap.GetTuple` reports a fault and the
constructor still completes with a Row that is not materialized.  And with a fill that
reports a fault when it is given no transaction, the advance from page 1 slot 0 calls the
fill for slot 1, is told of the fault, and still returns, with the iterator on slot 1 and
a Row that is not materialized. -/
theorem fill_fault_is_not_surfaced :
    (RowId.mk 1 5).page_id ≠ INVALID_PAGE_ID ∧
    (twoPageHeap.GetTuple (Row.ofRowId ⟨1, 5⟩) (some 1)).2.2 = false ∧
    (TableIterator.Construct twoPageHeap ⟨1, 5⟩ (some 1)).2 = ⟨7, ⟨⟨1, 5⟩, none⟩, some 1⟩ ∧
    (fillNeedingTxn twoPageHeap (Row.ofRowId ⟨1, 1⟩) none).2.2 = false ∧
    ((iterAt 1 0 [10]).operator_pre_inc_with fillNeedingTxn 2 twoPageHeap).outcome =
      Outcome.returned ∧
    ((iterAt 1 0 [10]).operator_pre_inc_with fillNeedingTxn 2 twoPageHeap).itr.row =
      ⟨⟨1, 1⟩, none⟩ ∧
    ((iterAt 1 0 [10]).operator_pre_inc_with fillNeedingTxn 2
        twoPageHeap).heap.buffer_pool_manager_.events =
      [Event.fetch 1 true, Event.rlatch 1, Event.nextTupleRid 1 ⟨1, 0⟩,
        Event.getTuple ⟨1, 1⟩ none, Event.runlatch 1, Event.unpin 1] := by
  decide

/-- C15, amended: whatever the fill of the heap reports, in particular when it reports a
fault, the report is dropped, in the constructor and in the advance alike.  For every fill:
the constructor at a RowId with a valid page id completes and its iterator carries the Row
as the fill left it; an advance whose walk has found a next address on a valid page
returns and its iterator carries the Row as the fill left it; and both operations end in
the very state they end in when the same fill reports success.  The constructor and the
pre-increment of the source are the case of `TableHeap.GetTuple`. -/
theorem fill_report_is_dropped (fill : Fill) (h : TableHeap) (rid : RowId) (txn : Option Nat)
    (hvalid : rid.page_id ≠ INVALID_PAGE_ID) :
    TableIterator.ConstructWith fill h rid txn =
      ((fill h (Row.ofRowId rid) txn).1,
        ⟨h.heap_id, (fill h (Row.ofRowId rid) txn).2.1, txn⟩) ∧
    TableIterator.ConstructWith fill h rid txn =
      TableIterator.ConstructWith fill.reportingSuccess h rid txn ∧
    (∀ (self : TableIterator) (fuel : Nat) (P c : TablePage) (b : BufferPoolManager)
      (n : RowId),
      findPage h.buffer_pool_manager_.pages self.row.rid.page_id = some P →
      walk fuel ((h.buffer_pool_manager_.addPin self.row.rid.page_id).RLatch P.page_id)
        P self.row.rid = (b, WalkResult.found c n) →
      n.page_id ≠ INVALID_PAGE_ID →
      (self.operator_pre_inc_with fill fuel h).outcome = Outcome.returned ∧
      (self.operator_pre_inc_with fill fuel h).itr.row =
        (fill (h.withPool b) (Row.ofRowId n) none).2.1) ∧
    (∀ (self : TableIterator) (fuel : Nat),
      self.operator_pre_inc_with fill fuel h =
        self.operator_pre_inc_with fill.reportingSuccess fuel h) ∧
    TableIterator.Construct h rid txn =
      TableIterator.ConstructWith TableHeap.GetTuple h rid txn ∧
    (∀ (self : TableIterator) (fuel : Nat),
      self.operator_pre_inc fuel h =
        self.operator_pre_inc_with TableHeap.GetTuple fuel h) := by
  refine ⟨?_, ?_, ?_, ?_, rfl, fun _ _ => rfl⟩
  · simp [TableIterator.ConstructWith, RowId.GetPageId, hvalid]
  · simp [TableIterator.ConstructWith, RowId.GetPageId, hvalid, Fill.reportingSuccess]
  · intro self fuel P c b n hP hw hn
    rw [pre_inc_with_of_walk_found fill self fuel h P c b n hP hw hn]
    exact ⟨rfl, rfl⟩
  · intro self fuel
    rfl

/-- C15, amended, on the two-page heap with the fill that reports a fault when it is given
no transaction: the constructor at page 1 slot 1 without a transaction, and the advance
from page 1 slot 0, both complete with the Row of slot 1 left unset. -/
theorem fill_report_is_dropped_witness :
    (RowId.mk 1 1).page_id ≠ INVALID_PAGE_ID ∧
    (fillNeedingTxn twoPageHeap (Row.ofRowId ⟨1, 1⟩) none).2.2 = false ∧
    TableIterator.ConstructWith fillNeedingTxn twoPageHeap ⟨1, 1⟩ none =
      ((fillNeedingTxn twoPageHeap (Row.ofRowId ⟨1, 1⟩) none).1,
        ⟨twoPageHeap.heap_id, (fillNeedingTxn twoPageHeap (Row.ofRowId ⟨1, 1⟩) none).2.1, none⟩) ∧
    (fillNeedingTxn twoPageHeap (Row.ofRowId ⟨1, 1⟩) none).2.1 = ⟨⟨1, 1⟩, none⟩ ∧
    ((iterAt 1 0 [10]).operator_pre_inc_with fillNeedingTxn 2 twoPageHeap).outcome =
      Outcome.returned ∧
    ((iterAt 1 0 [10]).operator_pre_inc_with fillNeedingTxn 2 twoPageHeap).itr.row =
      (fillNeedingTxn
        (twoPageHeap.withPool
          (((twoPageHeap.buffer_pool_manager_.addPin 1).RLatch 1).record
            (Event.nextTupleRid 1 ⟨1, 0⟩)))
        (Row.ofRowId ⟨1, 1⟩) none).2.1 :=
  ⟨by decide, by decide,
    (fill_report_is_dropped fillNeedingTxn twoPageHeap ⟨1, 1⟩ none (by decide)).1,
    by decide,
    ((fill_report_is_dropped fillNeedingTxn twoPageHeap ⟨1, 1⟩ none (by decide)).2.2.1
      (iterAt 1 0 [10]) 2 ⟨1, 2, [some [10], some [11]]⟩ ⟨1, 2, [some [10], some [11]]⟩
      (((twoPageHeap.buffer_pool_manager_.addPin 1).RLatch 1).record
        (Event.nextTupleRid 1 ⟨1, 0⟩))
      ⟨1, 1⟩ (by decide) rfl (by decide)).1,
    ((fill_report_is_dropped fillNeedingTxn twoPageHeap ⟨1, 1⟩ none (by decide)).2.2.1
      (iterAt 1 0 [10]) 2 ⟨1, 2, [some [10], some [11]]⟩ ⟨1, 2, [some [10], some [11]]⟩
      (((twoPageHeap.buffer_pool_manager_.addPin 1).RLatch 1).record
        (Event.nextTupleRid 1 ⟨1, 0⟩))
      ⟨1, 1⟩ (by decide) rfl (by decide)).2⟩

/-- C16 on a heap whose only page names a successor the cache does not hold: the fetch of
the successor is a miss, and the advance does not end in the StorageInconsistency fault;
it goes on to read the successor id through the null page pointer. -/
theorem missing_successor_is_dereferenced :
    findPage danglingHeap.buffer_pool_manager_.pages 9 = none ∧
    ((iterAt 1 0 [10]).operator_pre_inc 5 danglingHeap).heap.buffer_pool_manager_.events =
      [Event.fetch 1 true, Event.rlatch 1, Event.nextTupleRid 1 ⟨1, 0⟩, Event.nextPageId 1,
        Event.nextPageId 1, Event.fetch 9 false] ∧
    ((iterAt 1 0 [10]).operator_pre_inc 5 danglingHeap).outcome =
      Outcome.raised Fault.NullDereference ∧
    ((iterAt 1 0 [10]).operator_pre_inc 5 danglingHeap).outcome ≠
      Outcome.raised Fault.StorageInconsistency := by
  decide

/-- C17 on the two-page and the three-page heap: in the hop from page 1 to page 2 the
first row of page 2 is queried while page 2 is pinned but not read-locked, so the history
of the advance breaks the discipline of queries and locks; and on the three-page heap the
empty page 2 is read-locked right after its pin has been given back. -/
theorem hop_queries_unlocked_successor :
    ((iterAt 1 1 [11]).operator_pre_inc 5 twoPageHeap).outcome = Outcome.returned ∧
    ((iterAt 1 1 [11]).operator_pre_inc 5 twoPageHeap).heap.buffer_pool_manager_.events =
      [Event.fetch 1 true, Event.rlatch 1, Event.nextTupleRid 1 ⟨1, 1⟩, Event.nextPageId 1,
        Event.nextPageId 1, Event.fetch 2 true, Event.firstTupleRid 2,
        Event.getTuple ⟨2, 0⟩ none, Event.runlatch 2, Event.unpin 2] ∧
    guarded Held.nothing
      [Event.fetch 1 true, Event.rlatch 1, Event.nextTupleRid 1 ⟨1, 1⟩, Event.nextPageId 1,
        Event.nextPageId 1, Event.fetch 2 true] = true ∧
    guarded Held.nothing
      [Event.fetch 1 true, Event.rlatch 1, Event.nextTupleRid 1 ⟨1, 1⟩, Event.nextPageId 1,
        Event.nextPageId 1, Event.fetch 2 true, Event.firstTupleRid 2] = false ∧
    guarded Held.nothing
      ((iterAt 1 1 [11]).operator_pre_inc 5 twoPageHeap).heap.buffer_pool_manager_.events
        = false ∧
    ((iterAt 1 0 [10]).operator_pre_inc 5 threePageHeap).heap.buffer_pool_manager_.events =
      [Event.fetch 1 true, Event.rlatch 1, Event.nextTupleRid 1 ⟨1, 0⟩, Event.nextPageId 1,
        Event.nextPageId 1, Event.fetch 2 true, Event.firstTupleRid 2, Event.nextPageId 2,
        Event.runlatch 2, Event.unpin 2, Event.rlatch 2, Event.nextTupleRid 2 ⟨1, 0⟩,
        Event.nextPageId 2, Event.nextPageId 2, Event.fetch 3 true, Event.firstTupleRid 3,
        Event.getTuple ⟨3, 0⟩ none, Event.runlatch 3, Event.unpin 3] := by
  decide

/-- C18 on the three-page heap: the advance hops from page 1 over the empty page 2 to
page 3, and when it moves on from page 2 by fetching page 3 the pin and the read lock on
page 1 are still held; they are never given back in this call. -/
theorem hop_never_releases_older_page :
    ((iterAt 1 0 [10]).operator_pre_inc 5 threePageHeap).outcome = Outcome.returned ∧
    ((iterAt 1 0 [10]).operator_pre_inc 5 threePageHeap).itr.row = ⟨⟨3, 0⟩, some [30]⟩ ∧
    hopsRelease Held.nothing []
      ((iterAt 1 0 [10]).operator_pre_inc 5 threePageHeap).heap.buffer_pool_manager_.events
        = false ∧
    Event.runlatch 1 ∉
      ((iterAt 1 0 [10]).operator_pre_inc 5 threePageHeap).heap.buffer_pool_manager_.events ∧
    Event.unpin 1 ∉
      ((iterAt 1 0 [10]).operator_pre_inc 5 threePageHeap).heap.buffer_pool_manager_.events ∧
    ((iterAt 1 0 [10]).operator_pre_inc 5 threePageHeap).heap.buffer_pool_manager_.pin_count 1
      = 1 ∧
    ((iterAt 1 0 [10]).operator_pre_inc 5 threePageHeap).heap.buffer_pool_manager_.reader_count 1
      = 1 := by
  decide

/-- C19: when the chain that starts at the page of the current RowId has `n + 1` pages,
all held by the cache, and then ends with the invalid page id, the pre-increment ends by
returning or by a fault as soon as its loop may re-enter the body `n - 1` times; it has
then fetched at most `n + 1` pages, the number of pages that remain in the chain from the
current page; and every larger budget gives the same final state. -/
theorem pre_inc_terminates (self : TableIterator) (fuel n : Nat) (h : TableHeap)
    (hchain : chainFrom h.buffer_pool_manager_.pages (n + 1) self.row.rid.page_id)
    (hfuel : n ≤ fuel + 1) :
    ((self.operator_pre_inc fuel h).outcome = Outcome.returned ∨
      ∃ f, (self.operator_pre_inc fuel h).outcome = Outcome.raised f) ∧
    (self.operator_pre_inc fuel h).outcome ≠ Outcome.diverged ∧
    fetchCount (self.operator_pre_inc fuel h).heap.buffer_pool_manager_.events ≤
      fetchCount h.buffer_pool_manager_.events + (n + 1) ∧
    (∀ d, self.operator_pre_inc (fuel + d) h = self.operator_pre_inc fuel h) := by
  suffices hmain : ((self.operator_pre_inc fuel h).outcome = Outcome.returned ∨
      ∃ f, (self.operator_pre_inc fuel h).outcome = Outcome.raised f) ∧
      (self.operator_pre_inc fuel h).outcome ≠ Outcome.diverged ∧
      fetchCount (self.operator_pre_inc fuel h).heap.buffer_pool_manager_.events ≤
        fetchCount h.buffer_pool_manager_.events + (n + 1) from
    ⟨hmain.1, hmain.2.1, hmain.2.2,
      fun d => pre_inc_budget_irrelevant self fuel d h hmain.2.1⟩
  obtain ⟨_, P, hP, hrest⟩ := hchain
  have hfetch := FetchPage_hit hP
  obtain ⟨hne, hle⟩ := walk_terminates self.row.rid n fuel
    ((h.buffer_pool_manager_.addPin self.row.rid.page_id).RLatch P.page_id) P
    (by simpa using hrest) hfuel
  have hstart : fetchCount
      ((h.buffer_pool_manager_.addPin self.row.rid.page_id).RLatch P.page_id).events =
        fetchCount h.buffer_pool_manager_.events + 1 := by
    simp [fetchCount, List.countP_append, List.countP_cons, Event.isFetch]
  rw [hstart] at hle
  cases hw : walk fuel ((h.buffer_pool_manager_.addPin self.row.rid.page_id).RLatch P.page_id)
      P self.row.rid with
  | mk b1 res =>
    rw [hw] at hne hle
    have hle1 : fetchCount b1.events ≤ fetchCount h.buffer_pool_manager_.events + 1 + n := hle
    cases res with
    | diverged => exact absurd rfl hne
    | raised f =>
      have hstep : self.operator_pre_inc fuel h = ⟨h.withPool b1, self, Outcome.raised f⟩ := by
        simp [TableIterator.operator_pre_inc, Row.GetRowId, RowId.GetPageId, hfetch, hw]
      rw [hstep]
      exact ⟨Or.inr ⟨f, rfl⟩, (by intro hc; cases hc), by simp only [withPool_pool]; omega⟩
    | found c m =>
      have hout : (self.operator_pre_inc fuel h).outcome = Outcome.returned := by
        simp [TableIterator.operator_pre_inc, Row.GetRowId, RowId.GetPageId, hfetch, hw]
      have hcount : fetchCount (self.operator_pre_inc fuel h).heap.buffer_pool_manager_.events =
          fetchCount b1.events := by
        simp only [TableIterator.operator_pre_inc, Row.GetRowId, RowId.GetPageId, hfetch, hw]
        split
        · simp [GetTuple_events, fetchCount, List.countP_append, List.countP_cons,
            Event.isFetch, TablePage.GetTablePageId]
        · simp [fetchCount, List.countP_append, List.countP_cons, Event.isFetch,
            TablePage.GetTablePageId]
      rw [hout, hcount]
      exact ⟨Or.inl rfl, (by intro hc; cases hc), by omega⟩

/-- C19 on the two-page heap: from the last row of page 1 two pages remain in the chain,
and the advance ends after two fetches with no re-entry of the loop. -/
theorem pre_inc_terminates_witness :
    chainFrom twoPageHeap.buffer_pool_manager_.pages (1 + 1) (iterAt 1 1 [11]).row.rid.page_id ∧
    1 ≤ 0 + 1 ∧
    ((iterAt 1 1 [11]).operator_pre_inc 0 twoPageHeap).outcome ≠ Outcome.diverged ∧
    fetchCount ((iterAt 1 1 [11]).operator_pre_inc 0 twoPageHeap).heap.buffer_pool_manager_.events
      ≤ fetchCount twoPageHeap.buffer_pool_manager_.events + (1 + 1) :=
  ⟨⟨by decide, ⟨1, 2, [some [10], some [11]]⟩, by decide, by decide,
      ⟨2, INVALID_PAGE_ID, [some [20]]⟩, by decide, rfl⟩,
    by decide,
    (pre_inc_terminates (iterAt 1 1 [11]) 0 1 twoPageHeap
      ⟨by decide, ⟨1, 2, [some [10], some [11]]⟩, by decide, by decide,
        ⟨2, INVALID_PAGE_ID, [some [20]]⟩, by decide, rfl⟩ (by decide)).2.1,
    (pre_inc_terminates (iterAt 1 1 [11]) 0 1 twoPageHeap
      ⟨by decide, ⟨1, 2, [some [10], some [11]]⟩, by decide, by decide,
        ⟨2, INVALID_PAGE_ID, [some [20]]⟩, by decide, rfl⟩ (by decide)).2.2.1⟩

/-- C20: when a pre-increment ends in a fault, whichever it is, the iterator is left as it
was: its Row has the address and payload it had before the call, and the iterator
compares equal to a copy taken before the call. -/
theorem pre_inc_fault_keeps_Row (self : TableIterator) (fuel : Nat) (h : TableHeap) (f : Fault)
    (hfault : (self.operator_pre_inc fuel h).outcome = Outcome.raised f) :
    (self.operator_pre_inc fuel h).itr = self ∧
    (self.operator_pre_inc fuel h).itr.row.rid = self.row.rid ∧
    (self.operator_pre_inc fuel h).itr.row.fields = self.row.fields ∧
    (self.operator_pre_inc fuel h).itr.operator_eq (TableIterator.copy self) = true := by
  have hitr := pre_inc_not_returned self fuel h (by rw [hfault]; intro hc; cases hc)
  rw [hitr]
  refine ⟨rfl, rfl, rfl, ?_⟩
  simp [TableIterator.operator_eq, TableIterator.copy, Row.GetRowId]

/-- C20 at the last row of the two-page heap (chain exhausted). -/
theorem pre_inc_fault_keeps_Row_witness :
    ((iterAt 2 0 [20]).operator_pre_inc 3 twoPageHeap).outcome =
      Outcome.raised Fault.StorageInconsistency ∧
    ((iterAt 2 0 [20]).operator_pre_inc 3 twoPageHeap).itr = iterAt 2 0 [20] :=
  ⟨by decide,
    (pre_inc_fault_keeps_Row (iterAt 2 0 [20]) 3 twoPageHeap Fault.StorageInconsistency
      (by decide)).1⟩

end MiniSql
